import Mathlib

/-!
Verification development for the SPUD snapshot/restore engine
(`Source/SPUD/Private/SpudGameState.cpp`).

The engine's data model and operations are shallowly embedded below.
Machine values that the engine only copies (property values, transforms,
vectors, GUIDs) are modelled as opaque `Nat` tokens; byte archives are
modelled as lists of typed tokens; in-place mutation is modelled by
explicit state passing.  Unreal containers (`TMap`, `TArray`) are
modelled as association lists / lists with find-first semantics.
Functions whose bodies are not part of this repository slice
(`SpudPropertyUtil`, `FSpudClassDef`) are modelled from the spec and
carry a doc comment saying so.
-/

namespace Spud

/-- An FGuid, as an opaque token. `0` models the all-zero (invalid) GUID. -/
abbrev Guid := Nat

/-- An encoded property value, as an opaque token. -/
abbrev Value := Nat

/-- ESpudRespawnMode from ISpudObject. -/
inductive RespawnMode where
  | default
  | alwaysRespawn
  | neverRespawn
deriving DecidableEq, Repr

/-- The actor's root scene component: the fields `WriteCoreActorData` /
`RestoreCoreActorData` inspect (mobility, physics simulation, whether a
`Cast<UPrimitiveComponent>` succeeds) plus the physics velocities. -/
structure RootComp where
  movable : Bool
  simulatingPhysics : Bool
  isPrimitive : Bool
  velocity : Nat
  angularVelocity : Nat
deriving DecidableEq, Repr

/-- A reflected persistable property of a live object: either a leaf
property holding a value, or a custom-struct container property holding
nested properties.  The traversal framework walks this tree. -/
inductive PropTree where
  | leaf (name : String) (value : Value)
  | comp (name : String) (children : List PropTree)

mutual

/-- Boolean equality for property trees (nested inductive, so the instance
is written by hand). -/
def PropTree.beq : PropTree → PropTree → Bool
  | .leaf n v, .leaf m w => n == m && v == w
  | .comp n cs, .comp m ds => n == m && PropTree.beqList cs ds
  | _, _ => false

/-- Boolean equality for lists of property trees. -/
def PropTree.beqList : List PropTree → List PropTree → Bool
  | [], [] => true
  | a :: as, b :: bs => PropTree.beq a b && PropTree.beqList as bs
  | _, _ => false

end

mutual

theorem PropTree.beq_iff : ∀ a b : PropTree, PropTree.beq a b = true ↔ a = b
  | .leaf n v, .leaf m w => by
      simp [PropTree.beq]
  | .leaf _ _, .comp _ _ => by simp [PropTree.beq]
  | .comp _ _, .leaf _ _ => by simp [PropTree.beq]
  | .comp n cs, .comp m ds => by
      simp only [PropTree.beq, Bool.and_eq_true, beq_iff_eq, comp.injEq]
      exact and_congr Iff.rfl (PropTree.beqList_iff cs ds)

theorem PropTree.beqList_iff : ∀ as bs : List PropTree,
    PropTree.beqList as bs = true ↔ as = bs
  | [], [] => by simp [PropTree.beqList]
  | [], _ :: _ => by simp [PropTree.beqList]
  | _ :: _, [] => by simp [PropTree.beqList]
  | a :: as, b :: bs => by
      simp only [PropTree.beqList, Bool.and_eq_true, List.cons.injEq]
      exact and_congr (PropTree.beq_iff a b) (PropTree.beqList_iff as bs)

end

instance : DecidableEq PropTree := fun a b =>
  decidable_of_iff _ (PropTree.beq_iff a b)

/-- A live AActor, restricted to the state the engine reads or writes. -/
structure Actor where
  /-- GetFName / GetLevelActorName: stable name within a level. -/
  name : String
  /-- GetClass()->GetPathName(). -/
  className : String
  /-- Level name derived from the outermost package (GetLevelNameForObject). -/
  outerLevelName : String
  flagClassDefaultObject : Bool
  flagArchetypeObject : Bool
  flagBeginDestroyed : Bool
  hiddenInGame : Bool
  transform : Nat
  root : Option RootComp
  /-- The SpudGuid property: `none` = no such property on the class,
  `some 0` = property present but blank (invalid guid). -/
  spudGuid : Option Guid
  /-- Result of `Cast<ISpudObject>`: the respawn-mode override when the
  actor natively implements the interface. -/
  respawnOverride : Option RespawnMode
  isGameModeBase : Bool
  isGameStateBase : Bool
  isPawn : Bool
  isCharacter : Bool
  /-- SpudPropertyUtil::IsPersistentObject: implements the persistable contract. -/
  isPersistent : Bool
  /-- Implements USpudObjectCallback. -/
  implementsCallback : Bool
  /-- The opaque state the callback hooks read/write as the custom blob. -/
  customState : List Nat
  /-- The reflected persistable properties with their current values. -/
  props : List PropTree
deriving DecidableEq

/-- One token of the packed core-data archive (WriteRaw / ReadRaw). -/
inductive RawVal where
  | u16 (n : Nat)
  | rbool (b : Bool)
  | rxform (t : Nat)
  | rvec (v : Nat)
deriving DecidableEq, Repr

/-- FSpudPropertyDef: one stored property of a class definition, addressed
by (prefix ID, property-name ID). -/
structure PropertyDef where
  prefixID : Nat
  propID : Nat
deriving DecidableEq, Repr

/-- FSpudClassDef: the ordered stored property list for one class, plus the
fast/slow decision cache (valid for the duration of one load). -/
structure ClassDef where
  className : String
  properties : List PropertyDef
  fastCache : Option Bool
deriving DecidableEq, Repr

/-- FSpudClassMetadata: interning of class names, property names and
nested-struct prefix paths.  Property ID = index into `propertyNameIndex`;
class ID = index into `classNameIndex`; prefix ID `p+1` = entry `p` of
`prefixIndex`, a (parent prefix ID, struct-name property ID) pair; prefix
ID `0` is the root prefix. -/
structure ClassMetadata where
  classNameIndex : List String
  propertyNameIndex : List String
  prefixIndex : List (Nat × Nat)
  classes : List ClassDef
deriving DecidableEq, Repr

/-- FSpudObjectData: core data + property blob with offsets + custom blob. -/
structure ObjectData where
  coreData : List RawVal
  propData : List Value
  propOffsets : List Nat
  customData : List Nat
deriving DecidableEq, Repr

def emptyObjectData : ObjectData := ⟨[], [], [], []⟩

/-- FSpudNamedObjectData (level actor record, keyed by name). -/
structure NamedObjectData where
  name : String
  data : ObjectData
deriving DecidableEq, Repr

/-- FSpudSpawnedActorData (runtime actor record, keyed by guid). -/
structure SpawnedActorData where
  guid : Guid
  classID : Nat
  data : ObjectData
deriving DecidableEq, Repr

/-- FSpudLevelData. -/
structure LevelData where
  name : String
  metadata : ClassMetadata
  levelActors : List NamedObjectData
  spawnedActors : List SpawnedActorData
  destroyedActors : List String
deriving DecidableEq, Repr

def emptyLevelData (n : String) : LevelData := ⟨n, ⟨[], [], [], []⟩, [], [], []⟩

/-- The root save aggregate, restricted to the level-data map. -/
structure SaveData where
  levels : List LevelData
deriving DecidableEq, Repr

/-- A live ULevel: its name and its actor list. -/
structure Level where
  name : String
  actors : List Actor
deriving DecidableEq

/-! ### Basic actor predicates and accessors -/

/-- The flag filter at the top of UpdateFromActor / RestoreActor. -/
def hasBadFlags (a : Actor) : Bool :=
  a.flagClassDefaultObject || a.flagArchetypeObject || a.flagBeginDestroyed

/-- USpudGameState::GetClassName. -/
def getClassName (a : Actor) : String := a.className

/-- Modelled from the spec: SpudPropertyUtil::GetGuidProperty (not in this
slice) reads the actor's SpudGuid property, yielding the zero guid when the
property is absent. -/
def getGuidProperty (a : Actor) : Guid := a.spudGuid.getD 0

/-- Modelled from the spec: SpudPropertyUtil::SetGuidProperty (not in this
slice) writes the SpudGuid property, reporting whether a settable property
exists. -/
def setGuidProperty (a : Actor) (g : Guid) : Bool × Actor :=
  match a.spudGuid with
  | some _ => (true, { a with spudGuid := some g })
  | none => (false, a)

/-- Modelled from the spec: SpudPropertyUtil::IsRuntimeActor (not in this
slice); per §4.5 an entity is runtime/spawned material iff it exposes a
valid persistent unique identifier. -/
def isRuntimeActor (a : Actor) : Bool := getGuidProperty a != 0

/-- USpudGameState::ShouldRespawnRuntimeActor. -/
def shouldRespawnRuntimeActor (a : Actor) : Bool :=
  match a.respawnOverride.getD RespawnMode.default with
  | RespawnMode.default =>
      !a.isGameModeBase && !a.isGameStateBase && !a.isPawn && !a.isCharacter
  | RespawnMode.alwaysRespawn => true
  | RespawnMode.neverRespawn => false

/-- USpudGameState::ShouldActorBeRespawnedOnRestore. -/
def shouldActorBeRespawnedOnRestore (a : Actor) : Bool :=
  isRuntimeActor a && shouldRespawnRuntimeActor a

/-! ### Core actor data (packed, versioned) -/

/-- USpudGameState::WriteCoreActorData: version tag 1, hidden flag,
transform, then velocities (zero unless the root is a movable simulating
primitive). -/
def writeCoreActorData (a : Actor) : List RawVal :=
  let vels : Nat × Nat :=
    match a.root with
    | some rc =>
        if rc.movable && rc.simulatingPhysics && rc.isPrimitive then
          (rc.velocity, rc.angularVelocity)
        else (0, 0)
    | none => (0, 0)
  [RawVal.u16 1, RawVal.rbool a.hiddenInGame, RawVal.rxform a.transform,
   RawVal.rvec vels.1, RawVal.rvec vels.2]

/-- The leading version tag of a core-data archive (ReadRaw of a uint16;
a failed read leaves the default 0). -/
def readVersion : List RawVal → Nat
  | RawVal.u16 n :: _ => n
  | _ => 0

/-- USpudGameState::RestoreCoreActorData: decode by version tag; tag 1
applies hidden flag and transform, and velocities only on a movable
physics-simulating (primitive) root; any other tag logs and aborts without
touching the actor. -/
def restoreCoreActorData (a : Actor) (d : List RawVal) : Actor :=
  if readVersion d == 1 then
    let hidden := match d.get? 1 with | some (RawVal.rbool b) => b | _ => false
    let xf := match d.get? 2 with | some (RawVal.rxform t) => t | _ => 0
    let vel := match d.get? 3 with | some (RawVal.rvec v) => v | _ => 0
    let ang := match d.get? 4 with | some (RawVal.rvec v) => v | _ => 0
    let a1 := { a with hiddenInGame := hidden, transform := xf }
    match a1.root with
    | some rc =>
        if rc.movable && rc.simulatingPhysics && rc.isPrimitive then
          { a1 with root := some { rc with velocity := vel, angularVelocity := ang } }
        else a1
    | none => a1
  else a

/-! ### Metadata registry (FSpudClassMetadata)

Modelled from the spec §4.1: bidirectional interning of class names,
property names and nested-struct prefix paths, with an add-vs-lookup
split between the write path (FindOrAdd...) and the read path (Get...). -/

/-- Read path: property name → property ID (`none` models SPUDDATA_INDEX_NONE). -/
def getPropertyIDFromName (names : List String) (n : String) : Option Nat :=
  names.findIdx? (· == n)

/-- Read path: (parent prefix, struct property name) → prefix ID
(`none` models SPUDDATA_PREFIXID_NONE; never creates entries). -/
def getNestedPrefixID (names : List String) (pfxIndex : List (Nat × Nat))
    (parent : Nat) (n : String) : Option Nat :=
  match getPropertyIDFromName names n with
  | none => none
  | some pid => (pfxIndex.findIdx? (· == (parent, pid))).map (· + 1)

/-- FSpudClassMetadata::FindOrAddClassIDFromName. -/
def findOrAddClassIDFromName (m : ClassMetadata) (n : String) : Nat × ClassMetadata :=
  match m.classNameIndex.findIdx? (· == n) with
  | some i => (i, m)
  | none => (m.classNameIndex.length, { m with classNameIndex := m.classNameIndex ++ [n] })

/-- FSpudClassMetadata::GetClassNameFromID. -/
def getClassNameFromID (m : ClassMetadata) (id : Nat) : String :=
  (m.classNameIndex.get? id).getD ""

/-- FSpudClassMetadata::FindOrAddClassDef, returning the index of the
class definition (idempotent; creates an empty def if absent). -/
def findOrAddClassDef (m : ClassMetadata) (n : String) : Nat × ClassMetadata :=
  match m.classes.findIdx? (·.className == n) with
  | some i => (i, m)
  | none => (m.classes.length, { m with classes := m.classes ++ [⟨n, [], none⟩] })

/-- FSpudClassMetadata::GetClassDef (lookup, no mutation). -/
def getClassDef (m : ClassMetadata) (n : String) : Option (Nat × ClassDef) :=
  match m.classes.findIdx? (·.className == n) with
  | some i => (m.classes.get? i).map (fun cd => (i, cd))
  | none => none

/-! ### Snapshot traversal (write mode)

Modelled from the spec §4.2/§4.3: the visitor framework recursively
traverses the persistable property tree; the write-mode visitor interns
each leaf's name, registers (prefix ID, property ID) in the class
definition, records the byte offset and appends the encoded value to the
property blob; custom-struct containers register nothing themselves and
allocate a nested prefix ID for their children. -/

/-- The mutable state threaded through one write-mode traversal: the
metadata's property-name and prefix interning tables, the class
definition's stored property list, and the property blob with offsets. -/
structure SnapState where
  names : List String
  pfxIndex : List (Nat × Nat)
  props : List PropertyDef
  data : List Value
  offsets : List Nat
deriving DecidableEq, Repr

/-- Write path of property-name interning. -/
def findOrAddPropertyID (names : List String) (n : String) : Nat × List String :=
  match names.findIdx? (· == n) with
  | some i => (i, names)
  | none => (names.length, names ++ [n])

/-- Write path of prefix interning (SpudPropertyUtil::FindOrAddNestedPrefixID). -/
def findOrAddNestedPrefixID (st : SnapState) (parent : Nat) (n : String) :
    Nat × SnapState :=
  let r := findOrAddPropertyID st.names n
  match st.pfxIndex.findIdx? (· == (parent, r.1)) with
  | some i => (i + 1, { st with names := r.2 })
  | none =>
      (st.pfxIndex.length + 1,
        { st with names := r.2, pfxIndex := st.pfxIndex ++ [(parent, r.1)] })

/-- Write-mode visit of one leaf property: intern the name, register the
(prefix, property) pair in the class definition if not already present,
record the offset and write the value. -/
def snapLeaf (st : SnapState) (pfx : Nat) (n : String) (v : Value) : SnapState :=
  let r := findOrAddPropertyID st.names n
  let e : PropertyDef := ⟨pfx, r.1⟩
  let props' := if st.props.contains e then st.props else st.props ++ [e]
  { st with names := r.2, props := props',
            offsets := st.offsets ++ [st.data.length], data := st.data ++ [v] }

/-- The write-mode traversal over a property forest at a given prefix. -/
def snapList : Nat → List PropTree → SnapState → SnapState
  | _, [], st => st
  | pfx, PropTree.leaf n v :: ts, st => snapList pfx ts (snapLeaf st pfx n v)
  | pfx, PropTree.comp n cs :: ts, st =>
      let r := findOrAddNestedPrefixID st pfx n
      snapList pfx ts (snapList r.1 cs r.2)
termination_by _ ts _ => sizeOf ts
decreasing_by all_goals simp_wf <;> omega

/-! ### The runtime property sequence (fast-path match check)

Modelled from the spec §4.4: the fast path applies iff the stored class
definition's property sequence exactly matches the sequence the live
class's reflection produces now.  `seqList` computes the live class's
reflected (prefix ID, property ID) sequence using the read-only lookups;
an unresolvable name or prefix under a leaf yields `none` (no match). -/

def seqList (names : List String) (pfxIndex : List (Nat × Nat)) :
    Option Nat → List PropTree → Option (List PropertyDef)
  | _, [] => some []
  | pfx, PropTree.leaf n _ :: ts => do
      let p ← pfx
      let pid ← getPropertyIDFromName names n
      let rest ← seqList names pfxIndex pfx ts
      pure (⟨p, pid⟩ :: rest)
  | pfx, PropTree.comp n cs :: ts => do
      let inner ← seqList names pfxIndex
        (pfx.bind fun p => getNestedPrefixID names pfxIndex p n) cs
      let rest ← seqList names pfxIndex pfx ts
      pure (inner ++ rest)
termination_by _ ts => sizeOf ts
decreasing_by all_goals simp_wf <;> omega

/-- FSpudClassDef::MatchesRuntimeClass, modelled from the spec §4.4 with
the decision cache visible in the source comment at RestoreObjectProperties:
the comparison runs once per class definition and the result is cached in
the class definition for the duration of one load. -/
def matchesRuntimeClass (cd : ClassDef) (names : List String)
    (pfxIndex : List (Nat × Nat)) (live : List PropTree) : Bool × ClassDef :=
  match cd.fastCache with
  | some b => (b, cd)
  | none =>
      let b := seqList names pfxIndex (some 0) live == some cd.properties
      (b, { cd with fastCache := some b })

/-! ### Fast-path restoration -/

/-- The state of RestoreFastPropertyVisitor: the stored-property iterator
position and the property blob being read sequentially. -/
structure FastState where
  it : Nat
  data : List Value
deriving DecidableEq, Repr

/-- USpudGameState::RestoreFastPropertyVisitor::VisitProperty, lifted to the
traversal: stored properties are consumed in lockstep, one per leaf, and the
iterator is NOT advanced for custom-struct container properties (their
nested properties carry the values, the container is only context). -/
def fastList : List PropTree → FastState → List PropTree × FastState
  | [], st => ([], st)
  | PropTree.leaf n v :: ts, st =>
      let v' := (st.data.get? st.it).getD v
      let r := fastList ts { st with it := st.it + 1 }
      (PropTree.leaf n v' :: r.1, r.2)
  | PropTree.comp n cs :: ts, st =>
      let rcs := fastList cs st
      let rts := fastList ts rcs.2
      (PropTree.comp n rcs.1 :: rts.1, rts.2)
termination_by ts _ => sizeOf ts
decreasing_by all_goals simp_wf <;> omega

/-! ### Slow-path restoration -/

/-- The read-only context of RestoreSlowPropertyVisitor: metadata lookup
tables, the stored class definition's property list, and the record's
property blob with its per-property offsets (offsets enable the by-name
random access, per spec §4.3/§4.4). -/
structure SlowCtx where
  names : List String
  pfxIndex : List (Nat × Nat)
  cdProps : List PropertyDef
  data : List Value
  offsets : List Nat
deriving DecidableEq, Repr

/-- USpudGameState::RestoreSlowPropertyVisitor::VisitProperty on one leaf:
resolve the current prefix in the class definition's PropertyLookup, the
property name in the metadata, then the property index; any failure leaves
the live value untouched (logged skip). -/
def slowLeafValue (c : SlowCtx) (pfx : Option Nat) (n : String) (old : Value) : Value :=
  match pfx with
  | none => old
  | some p =>
      if c.cdProps.all (fun sp => sp.prefixID != p) then old
      else
        match getPropertyIDFromName c.names n with
        | none => old
        | some pid =>
            match c.cdProps.findIdx? (fun sp => sp.prefixID == p && sp.propID == pid) with
            | none => old
            | some i =>
                if i < c.cdProps.length then
                  match (c.offsets.get? i).bind (fun o => c.data.get? o) with
                  | some v => v
                  | none => old
                else old

/-- The slow-path traversal: custom-struct containers only cascade into
their children (with the read-only nested prefix lookup); each leaf is
restored independently by name-based lookup. -/
def slowList (c : SlowCtx) : Option Nat → List PropTree → List PropTree
  | _, [] => []
  | pfx, PropTree.leaf n v :: ts =>
      PropTree.leaf n (slowLeafValue c pfx n v) :: slowList c pfx ts
  | pfx, PropTree.comp n cs :: ts =>
      let np := pfx.bind fun p => getNestedPrefixID c.names c.pfxIndex p n
      PropTree.comp n (slowList c np cs) :: slowList c pfx ts
termination_by _ ts => sizeOf ts
decreasing_by all_goals simp_wf <;> omega

/-- USpudGameState::RestoreObjectProperties: look up the stored class
definition (missing: logged, skipped), decide fast vs slow via the cached
MatchesRuntimeClass, and run the corresponding visitor.  Returns the
restored property forest and the metadata with the updated decision cache. -/
def restoreObjectProperties (props : List PropTree) (className : String)
    (od : ObjectData) (m : ClassMetadata) : List PropTree × ClassMetadata :=
  match getClassDef m className with
  | none => (props, m)
  | some (i, cd) =>
      let r := matchesRuntimeClass cd m.propertyNameIndex m.prefixIndex props
      let m' := { m with classes := m.classes.set i r.2 }
      if r.1 then
        ((fastList props ⟨0, od.propData⟩).1, m')
      else
        (slowList ⟨m.propertyNameIndex, m.prefixIndex, cd.properties,
                   od.propData, od.propOffsets⟩ (some 0) props, m')

/-! ### Storage record resolution -/

/-- Index of the spawned-actor record keyed by a guid (TMap find). -/
def findSpawnedIdx (ld : LevelData) (g : Guid) : Option Nat :=
  ld.spawnedActors.findIdx? (fun s => s.guid == g)

/-- Index of the level-actor record keyed by a level actor name. -/
def findLevelActorIdx (ld : LevelData) (n : String) : Option Nat :=
  ld.levelActors.findIdx? (fun s => s.name == n)

/-- USpudGameState::GetSpawnedActorData.  With AutoCreate, a blank (but
settable) SpudGuid property is filled with a freshly generated guid on the
live actor itself; an actor with no settable SpudGuid property is rejected
(logged, `none`).  `freshGuid` stands for FGuid::NewGuid() (always valid,
i.e. nonzero).  Returns the record's index, the (possibly mutated) actor
and the (possibly extended) level data. -/
def getSpawnedActorData (a : Actor) (ld : LevelData) (autoCreate : Bool)
    (freshGuid : Guid) : Option (Nat × Actor × LevelData) :=
  let guid0 := getGuidProperty a
  let s :=
    if !(guid0 != 0) && autoCreate then
      let r := setGuidProperty a freshGuid
      (freshGuid, r.1, r.2)
    else (guid0, guid0 != 0, a)
  if !s.2.1 then none
  else
    match findSpawnedIdx ld s.1 with
    | some i => some (i, s.2.2, ld)
    | none =>
        if autoCreate then
          let r := findOrAddClassIDFromName ld.metadata (getClassName a)
          let sad : SpawnedActorData := ⟨s.1, r.1, emptyObjectData⟩
          some (ld.spawnedActors.length, s.2.2,
                { ld with metadata := r.2, spawnedActors := ld.spawnedActors ++ [sad] })
        else none

/-- USpudGameState::GetLevelActorData: resolve (or with AutoCreate, create)
the named level-actor record.  Returns the record's index. -/
def getLevelActorData (a : Actor) (ld : LevelData) (autoCreate : Bool) :
    Option (Nat × LevelData) :=
  match findLevelActorIdx ld a.name with
  | some i => some (i, ld)
  | none =>
      if autoCreate then
        some (ld.levelActors.length,
              { ld with levelActors := ld.levelActors ++ [⟨a.name, emptyObjectData⟩] })
      else none

/-! ### Snapshot of one actor -/

/-- USpudGameState::UpdateFromActor (the LevelData overload): route by
ShouldActorBeRespawnedOnRestore, resolve/create the storage record, then
rewrite its core data, property blob (running the write-mode traversal
against the class definition and metadata) and, when the actor implements
the callback interface, its custom blob. -/
def updateFromActor (a : Actor) (ld : LevelData) (freshGuid : Guid) :
    Actor × LevelData :=
  if hasBadFlags a then (a, ld) else
  let bRespawn := shouldActorBeRespawnedOnRestore a
  let rcd := findOrAddClassDef ld.metadata (getClassName a)
  let cdIdx := rcd.1
  let ld1 := { ld with metadata := rcd.2 }
  let dest : Option (Actor × LevelData × (Bool × Nat)) :=
    if bRespawn then
      (getSpawnedActorData a ld1 true freshGuid).map
        (fun r => (r.2.1, r.2.2, (true, r.1)))
    else
      (getLevelActorData a ld1 true).map (fun r => (a, r.2, (false, r.1)))
  match dest with
  | none => (a, ld1)
  | some (a', ld2, slot) =>
      let m2 := ld2.metadata
      let cd := (m2.classes.get? cdIdx).getD ⟨getClassName a, [], none⟩
      let oldOd :=
        if slot.1 then ((ld2.spawnedActors.get? slot.2).map (·.data)).getD emptyObjectData
        else ((ld2.levelActors.get? slot.2).map (·.data)).getD emptyObjectData
      let st1 := snapList 0 a'.props
        ⟨m2.propertyNameIndex, m2.prefixIndex, cd.properties, [], oldOd.propOffsets⟩
      let cd' := { cd with properties := st1.props }
      let m3 := { m2 with propertyNameIndex := st1.names, prefixIndex := st1.pfxIndex,
                          classes := m2.classes.set cdIdx cd' }
      let od' : ObjectData :=
        { coreData := writeCoreActorData a',
          propData := st1.data,
          propOffsets := st1.offsets,
          customData := if a'.implementsCallback then a'.customState else oldOd.customData }
      let ld3 :=
        if slot.1 then
          { ld2 with
              metadata := m3,
              spawnedActors :=
                ld2.spawnedActors.modify (fun s => { s with data := od' }) slot.2 }
        else
          { ld2 with
              metadata := m3,
              levelActors :=
                ld2.levelActors.modify (fun s => { s with data := od' }) slot.2 }
      (a', ld3)

/-- USpudGameState::UpdateFromActor (the level-resolving overload): the flag
filter runs before any level data is resolved or created. -/
def updateFromActorOuter (a : Actor) (sd : SaveData) (freshGuid : Guid) :
    Actor × SaveData :=
  if hasBadFlags a then (a, sd) else
  let ld :=
    match sd.levels.find? (·.name == a.outerLevelName) with
    | some ld => ld
    | none => emptyLevelData a.outerLevelName
  let r := updateFromActor a ld freshGuid
  (r.1,
    ⟨match sd.levels.findIdx? (·.name == a.outerLevelName) with
     | some i => sd.levels.set i r.2
     | none => sd.levels ++ [r.2]⟩)

/-- USpudGameState::UpdateLevelActorDestroyed: record the destroyed level
actor's name; no duplicate check is performed. -/
def updateLevelActorDestroyed (a : Actor) (ld : LevelData) : LevelData :=
  { ld with destroyedActors := ld.destroyedActors ++ [a.name] }

/-! ### Restore of one actor -/

/-- The record lookup performed by RestoreActor (no auto-creation). -/
def lookupActorRecord (a : Actor) (ld : LevelData) : Option ObjectData :=
  if shouldActorBeRespawnedOnRestore a then
    match getSpawnedActorData a ld false 0 with
    | some (i, _, _) => (ld.spawnedActors.get? i).map (·.data)
    | none => none
  else
    match findLevelActorIdx ld a.name with
    | some i => (ld.levelActors.get? i).map (·.data)
    | none => none

/-- USpudGameState::PostRestoreObject: the finalise-load hook reads the
stored custom blob (modelled as replacing the actor's callback state);
actors without the callback interface are untouched. -/
def postRestoreObject (a : Actor) (customData : List Nat) : Actor :=
  if a.implementsCallback then { a with customState := customData } else a

/-- USpudGameState::RestoreActor (the LevelData overload): flag filter,
record lookup by the same routing decision as at snapshot time, then core
data restore followed by property restore and the custom-data hook. -/
def restoreActor (a : Actor) (ld : LevelData) : Actor × LevelData :=
  if hasBadFlags a then (a, ld) else
  match lookupActorRecord a ld with
  | none => (a, ld)
  | some od =>
      let a1 := restoreCoreActorData a od.coreData
      let r := restoreObjectProperties a1.props (getClassName a) od ld.metadata
      let a2 := postRestoreObject { a1 with props := r.1 } od.customData
      (a2, { ld with metadata := r.2 })

/-- USpudGameState::RestoreActor (the level-resolving overload): the flag
filter runs first; missing level data is a logged no-op. -/
def restoreActorOuter (a : Actor) (sd : SaveData) : Actor × SaveData :=
  if hasBadFlags a then (a, sd) else
  match sd.levels.findIdx? (·.name == a.outerLevelName) with
  | none => (a, sd)
  | some i =>
      match sd.levels.get? i with
      | none => (a, sd)
      | some ld =>
          let r := restoreActor a ld
          (r.1, ⟨sd.levels.set i r.2⟩)

/-! ### Level restore -/

/-- USpudGameState::RespawnActor: resolve the stored class path (failure is
a logged skip), spawn an instance (`resolve` stands for the host's class
resolution + spawning) and write the stored guid into its SpudGuid property
(failure to set is logged but the actor is still returned). -/
def respawnActor (sad : SpawnedActorData) (m : ClassMetadata)
    (resolve : String → Option Actor) : Option Actor :=
  match resolve (getClassNameFromID m sad.classID) with
  | none => none
  | some template => some (setGuidProperty template sad.guid).2

/-- USpudGameState::DestroyActor: locate a live actor by recorded name
(StaticFindObject) and remove it from the simulation; a missing actor is a
silent no-op. -/
def destroyActorByName (n : String) (actors : List Actor) : List Actor :=
  match actors.findIdx? (fun a => a.name == n) with
  | some i => actors.eraseIdx i
  | none => actors

/-- One observable event of a level restore, used to state ordering: a
respawn of a stored spawned-actor record, a property restoration of a live
actor (recording the guid-keyed identity table at that moment), or a
destroyed-actor removal. -/
inductive REvent where
  | respawn (g : Guid)
  | restoreEnt (name : String) (tableKeys : List Guid)
  | destroyEnt (name : String)
deriving DecidableEq, Repr

/-- Phase (a) of RestoreLevel: respawn every stored spawned-actor record
(spawned instances join the level's actor list) and register each spawned
actor in the guid-keyed identity table. -/
def phaseA (m : ClassMetadata) (resolve : String → Option Actor) :
    List SpawnedActorData → List Actor × List Guid × List REvent
  | [] => ([], [], [])
  | sad :: rest =>
      let r := phaseA m resolve rest
      match respawnActor sad m resolve with
      | some actor => (actor :: r.1, sad.guid :: r.2.1, REvent.respawn sad.guid :: r.2.2)
      | none => r

/-- Phase (b) of RestoreLevel: restore every persistable live actor in
place, and register restored actors carrying a valid guid in the identity
table as iteration proceeds. -/
def phaseB (ld : LevelData) (table : List Guid) :
    List Actor → List Actor × LevelData × List REvent
  | [] => ([], ld, [])
  | a :: rest =>
      if a.isPersistent then
        let r := restoreActor a ld
        let table' :=
          if getGuidProperty r.1 != 0 then table ++ [getGuidProperty r.1] else table
        let rr := phaseB r.2 table' rest
        (r.1 :: rr.1, rr.2.1, REvent.restoreEnt a.name table :: rr.2.2)
      else
        let rr := phaseB ld table rest
        (a :: rr.1, rr.2.1, rr.2.2)

/-- Phase (c) of RestoreLevel: remove every actor recorded as destroyed. -/
def phaseC : List String → List Actor → List Actor × List REvent
  | [], actors => (actors, [])
  | n :: rest, actors =>
      let r := phaseC rest (destroyActorByName n actors)
      (r.1, REvent.destroyEnt n :: r.2)

/-- USpudGameState::RestoreLevel: missing stored level data is a logged
no-op; otherwise respawn stored spawned actors (a), restore live actor
state (b), then remove destroyed actors (c), in that order. -/
def restoreLevel (sd : SaveData) (lvl : Level)
    (resolve : String → Option Actor) : Level × SaveData × List REvent :=
  match sd.levels.findIdx? (·.name == lvl.name) with
  | none => (lvl, sd, [])
  | some li =>
      match sd.levels.get? li with
      | none => (lvl, sd, [])
      | some ld =>
          let ra := phaseA ld.metadata resolve ld.spawnedActors
          let rb := phaseB ld ra.2.1 (lvl.actors ++ ra.1)
          let rc := phaseC ld.destroyedActors rb.1
          ({ lvl with actors := rc.1 }, ⟨sd.levels.set li rb.2.1⟩,
            ra.2.2 ++ rb.2.2 ++ rc.2)

/-! ## Helper notions and lemmas -/

/-- Number of leaf properties in a property forest: the number of stored
slots its traversal produces/consumes. -/
def leafCount : List PropTree → Nat
  | [] => 0
  | PropTree.leaf _ _ :: ts => 1 + leafCount ts
  | PropTree.comp _ cs :: ts => leafCount cs + leafCount ts
termination_by ts => sizeOf ts
decreasing_by all_goals simp_wf <;> omega

theorem fastList_it : ∀ (ts : List PropTree) (st : FastState),
    (fastList ts st).2.it = st.it + leafCount ts ∧ (fastList ts st).2.data = st.data
  | [], st => by simp [fastList, leafCount]
  | PropTree.leaf n v :: ts, st => by
      have h := fastList_it ts { st with it := st.it + 1 }
      simp only [fastList, leafCount]
      refine ⟨?_, h.2⟩
      rw [h.1]; simp; omega
  | PropTree.comp n cs :: ts, st => by
      have h1 := fastList_it cs st
      have h2 := fastList_it ts (fastList cs st).2
      simp only [fastList, leafCount]
      refine ⟨?_, by rw [h2.2, h1.2]⟩
      rw [h2.1, h1.1]; omega
termination_by ts _ => sizeOf ts
decreasing_by all_goals simp_wf <;> omega

/-! ## Claims -/

/-- Decode a prefix ID back into the nested-struct name path it interns
(the inverse reading of the prefix tree). -/
def decodePrefixPath (names : List String) (pfxIndex : List (Nat × Nat)) :
    Nat → Option (List String)
  | 0 => some []
  | p + 1 =>
      match pfxIndex.get? p with
      | none => none
      | some pr =>
          if _h : pr.1 ≤ p then
            match decodePrefixPath names pfxIndex pr.1, names.get? pr.2 with
            | some path, some n => some (path ++ [n])
            | _, _ => none
          else none
termination_by p => p
decreasing_by simp_wf; omega

/-- Decode one stored property into its (struct name path, property name). -/
def decodeSP (names : List String) (pfxIndex : List (Nat × Nat))
    (sp : PropertyDef) : Option (List String × String) := do
  let path ← decodePrefixPath names pfxIndex sp.prefixID
  let n ← names.get? sp.propID
  pure (path, n)

/-- Decode a stored property sequence into name/path form. -/
def decodeSeq (names : List String) (pfxIndex : List (Nat × Nat))
    (l : List PropertyDef) : Option (List (List String × String)) :=
  l.mapM (decodeSP names pfxIndex)

/-- The name-level signature of a live class's reflected property sequence:
its leaf properties, in traversal order, each with the nested-struct name
path leading to it. -/
def sigList : List String → List PropTree → List (List String × String)
  | _, [] => []
  | path, PropTree.leaf n _ :: ts => (path, n) :: sigList path ts
  | path, PropTree.comp n cs :: ts => sigList (path ++ [n]) cs ++ sigList path ts
termination_by _ ts => sizeOf ts
decreasing_by all_goals simp_wf <;> omega

/-- The values of the leaf properties in traversal order. -/
def leafVals : List PropTree → List Value
  | [] => []
  | PropTree.leaf _ v :: ts => v :: leafVals ts
  | PropTree.comp _ cs :: ts => leafVals cs ++ leafVals ts
termination_by ts => sizeOf ts
decreasing_by all_goals simp_wf <;> omega

/-- The shape of a property forest: the forest with every leaf value
erased.  Two objects of the same class have the same shape. -/
def stripList : List PropTree → List PropTree
  | [] => []
  | PropTree.leaf n _ :: ts => PropTree.leaf n 0 :: stripList ts
  | PropTree.comp n cs :: ts => PropTree.comp n (stripList cs) :: stripList ts
termination_by ts => sizeOf ts
decreasing_by all_goals simp_wf <;> omega

/-- Well-formedness of the interning tables, as maintained by the write
path: no duplicate names, no duplicate prefix entries, and prefix entries
reference earlier prefixes and valid property names. -/
structure MetaWF (names : List String) (pfxIndex : List (Nat × Nat)) : Prop where
  nodupNames : names.Nodup
  nodupPfx : pfxIndex.Nodup
  parentBound : ∀ i pr, pfxIndex.get? i = some pr → pr.1 ≤ i
  pidBound : ∀ i pr, pfxIndex.get? i = some pr → pr.2 < names.length

theorem sigList_length : ∀ (path : List String) (ts : List PropTree),
    (sigList path ts).length = leafCount ts
  | _, [] => by simp [sigList, leafCount]
  | path, PropTree.leaf n v :: ts => by
      simp [sigList, leafCount, sigList_length path ts]; omega
  | path, PropTree.comp n cs :: ts => by
      simp [sigList, leafCount, sigList_length (path ++ [n]) cs, sigList_length path ts]
termination_by _ ts => sizeOf ts
decreasing_by all_goals simp_wf <;> omega

theorem leafVals_length : ∀ ts : List PropTree, (leafVals ts).length = leafCount ts
  | [] => by simp [leafVals, leafCount]
  | PropTree.leaf n v :: ts => by
      simp [leafVals, leafCount, leafVals_length ts]; omega
  | PropTree.comp n cs :: ts => by
      simp [leafVals, leafCount, leafVals_length cs, leafVals_length ts]
termination_by ts => sizeOf ts
decreasing_by all_goals simp_wf <;> omega

theorem sigList_strip : ∀ (path : List String) (ts : List PropTree),
    sigList path (stripList ts) = sigList path ts
  | _, [] => by simp [stripList]
  | path, PropTree.leaf n v :: ts => by
      simp [stripList, sigList, sigList_strip path ts]
  | path, PropTree.comp n cs :: ts => by
      simp [stripList, sigList, sigList_strip (path ++ [n]) cs, sigList_strip path ts]
termination_by _ ts => sizeOf ts
decreasing_by all_goals simp_wf <;> omega

theorem leafCount_strip : ∀ ts : List PropTree, leafCount (stripList ts) = leafCount ts
  | [] => by simp [stripList]
  | PropTree.leaf n v :: ts => by
      simp [stripList, leafCount, leafCount_strip ts]
  | PropTree.comp n cs :: ts => by
      simp [stripList, leafCount, leafCount_strip cs, leafCount_strip ts]
termination_by ts => sizeOf ts
decreasing_by all_goals simp_wf <;> omega

theorem seqList_strip (names : List String) (pfxIndex : List (Nat × Nat)) :
    ∀ (pfx : Option Nat) (ts : List PropTree),
    seqList names pfxIndex pfx (stripList ts) = seqList names pfxIndex pfx ts
  | _, [] => by simp [stripList]
  | pfx, PropTree.leaf n v :: ts => by
      simp [stripList, seqList, seqList_strip names pfxIndex pfx ts]
  | pfx, PropTree.comp n cs :: ts => by
      simp [stripList, seqList, seqList_strip names pfxIndex _ cs,
        seqList_strip names pfxIndex pfx ts]
termination_by _ ts => sizeOf ts
decreasing_by all_goals simp_wf <;> omega

theorem get?_some_lt {α : Type _} {l : List α} {i : Nat} {a : α}
    (h : l.get? i = some a) : i < l.length := by
  by_contra hcon
  rw [List.get?_eq_none.mpr (Nat.le_of_not_lt hcon)] at h
  cases h

theorem get?_append_of_some {α : Type _} {l ext : List α} {i : Nat} {a : α}
    (h : l.get? i = some a) : (l ++ ext).get? i = some a := by
  rw [List.get?_append (get?_some_lt h)]; exact h

/-- In a duplicate-free list, looking up a stored element by value finds
exactly its index. -/
theorem findIdx?_of_nodup_get? {α : Type _} [BEq α] [LawfulBEq α] :
    ∀ {l : List α}, l.Nodup → ∀ {i : Nat} {x : α}, l.get? i = some x →
      l.findIdx? (· == x) = some i
  | [], _, i, x, h => by cases h
  | a :: l, hnd, 0, x, h => by
      rw [List.get?] at h
      cases h
      simp [List.findIdx?_cons]
  | a :: l, hnd, i + 1, x, h => by
      rw [List.get?] at h
      have hnd' := List.nodup_cons.mp hnd
      have hax : (a == x) = false := by
        rw [beq_eq_false_iff_ne]
        intro hcon
        exact hnd'.1 (hcon ▸ List.get?_mem h)
      rw [List.findIdx?_cons, hax]
      simp only [Bool.false_eq_true, if_false, List.findIdx?_start_succ,
        findIdx?_of_nodup_get? hnd'.2 h]
      simp

theorem findIdx?_get?_of_eq_some {α : Type _} [BEq α] [LawfulBEq α]
    {l : List α} {x : α} {i : Nat} (h : l.findIdx? (· == x) = some i) :
    l.get? i = some x := by
  obtain ⟨hlt, hbeq, -⟩ := List.findIdx?_eq_some_iff_getElem.mp h
  rw [List.get?_eq_getElem?, List.getElem?_eq_getElem hlt]
  exact congrArg some (eq_of_beq hbeq)

theorem decode_le_length {names : List String} {pfxIndex : List (Nat × Nat)}
    {p : Nat} {path : List String}
    (h : decodePrefixPath names pfxIndex p = some path) : p ≤ pfxIndex.length := by
  cases p with
  | zero => exact Nat.zero_le _
  | succ p =>
      rw [decodePrefixPath] at h
      cases hg : pfxIndex.get? p with
      | none => rw [hg] at h; cases h
      | some pr => exact get?_some_lt hg

/-- Unfolding of a successful decode of a nonzero prefix ID. -/
theorem decode_succ_shape {names : List String} {pfxIndex : List (Nat × Nat)}
    {p : Nat} {s : List String}
    (h : decodePrefixPath names pfxIndex (p + 1) = some s) :
    ∃ pr path n, pfxIndex.get? p = some pr ∧ pr.1 ≤ p ∧
      decodePrefixPath names pfxIndex pr.1 = some path ∧
      names.get? pr.2 = some n ∧ s = path ++ [n] := by
  rw [decodePrefixPath] at h
  split at h
  · cases h
  · rename_i pr hg
    split at h
    · rename_i hb
      split at h
      · rename_i path n hd hn
        cases h
        exact ⟨pr, path, n, hg, hb, hd, hn, rfl⟩
      · cases h
    · cases h

theorem decode_succ_intro {names : List String} {pfxIndex : List (Nat × Nat)}
    {p : Nat} {pr : Nat × Nat} {path : List String} {n : String}
    (hg : pfxIndex.get? p = some pr) (hb : pr.1 ≤ p)
    (hd : decodePrefixPath names pfxIndex pr.1 = some path)
    (hn : names.get? pr.2 = some n) :
    decodePrefixPath names pfxIndex (p + 1) = some (path ++ [n]) := by
  simp only [decodePrefixPath, hg, dif_pos hb, hd, hn]

/-- Decoding is stable under extending the interning tables. -/
theorem decode_append {names en : List String} {pfxIndex ep : List (Nat × Nat)} :
    ∀ (p : Nat) {path : List String},
      decodePrefixPath names pfxIndex p = some path →
      decodePrefixPath (names ++ en) (pfxIndex ++ ep) p = some path
  | 0, path, h => by rw [decodePrefixPath] at h ⊢; exact h
  | p + 1, path, h => by
      obtain ⟨pr, path', n, hg, hb, hd, hn, rfl⟩ := decode_succ_shape h
      exact decode_succ_intro (get?_append_of_some hg) hb
        (decode_append pr.1 hd) (get?_append_of_some hn)
termination_by p => p
decreasing_by simp_wf; omega

theorem decodeSP_append {names en : List String} {pfxIndex ep : List (Nat × Nat)}
    {sp : PropertyDef} {s : List String × String}
    (h : decodeSP names pfxIndex sp = some s) :
    decodeSP (names ++ en) (pfxIndex ++ ep) sp = some s := by
  unfold decodeSP at h ⊢
  cases hd : decodePrefixPath names pfxIndex sp.prefixID with
  | none => rw [hd] at h; cases h
  | some path =>
      cases hn : names.get? sp.propID with
      | none => rw [hd, hn] at h; cases h
      | some n =>
          rw [hd, hn] at h
          rw [decode_append _ hd, get?_append_of_some hn]
          exact h

theorem decodeSeq_append {names en : List String} {pfxIndex ep : List (Nat × Nat)} :
    ∀ {l : List PropertyDef} {s : List (List String × String)},
      decodeSeq names pfxIndex l = some s →
      decodeSeq (names ++ en) (pfxIndex ++ ep) l = some s
  | [], s, h => h
  | sp :: l, s, h => by
      unfold decodeSeq at h ⊢
      rw [List.mapM_cons] at h ⊢
      cases hd : decodeSP names pfxIndex sp with
      | none => rw [hd] at h; cases h
      | some x =>
          cases hl : decodeSeq names pfxIndex l with
          | none => unfold decodeSeq at hl; rw [hd, hl] at h; cases h
          | some xs =>
              unfold decodeSeq at hl
              rw [hd, hl] at h
              rw [decodeSP_append hd]
              have hrec := @decodeSeq_append names en pfxIndex ep l xs hl
              unfold decodeSeq at hrec
              rw [hrec]
              exact h

/-- Decoding prefix IDs is injective on defined paths (well-formed tables). -/
theorem decode_inj {names : List String} {pfxIndex : List (Nat × Nat)}
    (wf : MetaWF names pfxIndex) :
    ∀ (p : Nat) {q : Nat} {path : List String},
      decodePrefixPath names pfxIndex p = some path →
      decodePrefixPath names pfxIndex q = some path → p = q
  | 0, q, path, hp, hq => by
      rw [decodePrefixPath] at hp
      cases hp
      cases q with
      | zero => rfl
      | succ q =>
          obtain ⟨_, _, _, _, _, _, _, habs⟩ := decode_succ_shape hq
          simp at habs
  | p + 1, q, path, hp, hq => by
      obtain ⟨pr, pathp, np, hgp, hbp, hdp, hnp, rfl⟩ := decode_succ_shape hp
      cases q with
      | zero =>
          rw [decodePrefixPath] at hq
          have habs := Option.some.inj hq
          simp at habs
      | succ q =>
          obtain ⟨qr, pathq, nq, hgq, hbq, hdq, hnq, heq⟩ := decode_succ_shape hq
          obtain ⟨hpath, hsing⟩ := List.append_inj' heq (by simp)
          have hn : np = nq := by cases hsing; rfl
          have hpid : pr.2 = qr.2 := by
            apply List.getElem?_inj (get?_some_lt hnp) wf.nodupNames
            rw [← List.get?_eq_getElem?, ← List.get?_eq_getElem?, hnp, hnq, hn]
          have hpar : pr.1 = qr.1 :=
            decode_inj wf pr.1 hdp (hpath ▸ hdq)
          have hpr : pr = qr := Prod.ext hpar hpid
          have : p = q := by
            apply List.getElem?_inj (get?_some_lt hgp) wf.nodupPfx
            rw [← List.get?_eq_getElem?, ← List.get?_eq_getElem?, hgp, hgq, hpr]
          omega
termination_by p => p
decreasing_by simp_wf; omega

/-- Any path-prefix of a decodable path is itself decodable (walking up the
prefix tree). -/
theorem decode_ancestor {names : List String} {pfxIndex : List (Nat × Nat)}
    {π₁ : List String} :
    ∀ (π₂ : List String) {p : Nat},
      decodePrefixPath names pfxIndex p = some (π₁ ++ π₂) →
      ∃ r, decodePrefixPath names pfxIndex r = some π₁ := by
  intro π₂
  induction π₂ using List.reverseRecOn with
  | nil => intro p h; exact ⟨p, by simpa using h⟩
  | append_singleton π₂ z ih =>
      intro p h
      cases p with
      | zero =>
          rw [decodePrefixPath] at h
          have habs := Option.some.inj h
          simp at habs
      | succ p =>
          obtain ⟨pr, path, n, hg, hb, hd, hn, heq⟩ := decode_succ_shape h
          have heq2 : path ++ [n] = (π₁ ++ π₂) ++ [z] := by
            rw [List.append_assoc]; exact heq.symm
          obtain ⟨hpath, -⟩ := List.append_inj' heq2 (by simp)
          exact ih (hpath ▸ hd)

/-- Forward reading of the nested-prefix lookup. -/
theorem getNested_fwd {names : List String} {pfxIndex : List (Nat × Nat)}
    (wf : MetaWF names pfxIndex) {p q : Nat} {n : String} {path : List String}
    (hq : getNestedPrefixID names pfxIndex p n = some q)
    (hp : decodePrefixPath names pfxIndex p = some path) :
    decodePrefixPath names pfxIndex q = some (path ++ [n]) := by
  cases hpid : getPropertyIDFromName names n with
  | none =>
      simp only [getNestedPrefixID, hpid] at hq
      cases hq
  | some pid =>
      have hq' : Option.map (· + 1) (pfxIndex.findIdx? (· == (p, pid))) = some q := by
        simpa only [getNestedPrefixID, hpid] using hq
      obtain ⟨i, hfi, hiq⟩ := Option.map_eq_some'.mp hq'
      have hget : pfxIndex.get? i = some (p, pid) := findIdx?_get?_of_eq_some hfi
      have hnm : names.get? pid = some n := findIdx?_get?_of_eq_some hpid
      rw [← hiq]
      exact decode_succ_intro hget (wf.parentBound i _ hget) hp hnm

/-- Backward reading of the nested-prefix lookup: if some prefix ID decodes
to `path ++ [n]` and `p` decodes to `path`, the read-only lookup finds it. -/
theorem getNested_bwd {names : List String} {pfxIndex : List (Nat × Nat)}
    (wf : MetaWF names pfxIndex) {p q : Nat} {n : String} {path : List String}
    (hq : decodePrefixPath names pfxIndex q = some (path ++ [n]))
    (hp : decodePrefixPath names pfxIndex p = some path) :
    getNestedPrefixID names pfxIndex p n = some q := by
  cases q with
  | zero =>
      rw [decodePrefixPath] at hq
      have habs := Option.some.inj hq
      simp at habs
  | succ q =>
      obtain ⟨pr, path', n', hg, hb, hd, hn, heq⟩ := decode_succ_shape hq
      obtain ⟨hpath, hsing⟩ := List.append_inj' heq.symm (by simp)
      have hn' : n' = n := by cases hsing; rfl
      have hpar : pr.1 = p := decode_inj wf pr.1 hd (hpath ▸ hp)
      have hget : pfxIndex.get? q = some (p, pr.2) := by
        rw [hg]; exact congrArg some (Prod.ext hpar rfl)
      have hnm : getPropertyIDFromName names n = some pr.2 :=
        findIdx?_of_nodup_get? wf.nodupNames (hn' ▸ hn)
      simp only [getNestedPrefixID, hnm,
        findIdx?_of_nodup_get? wf.nodupPfx hget, Option.map_some']

theorem decodeSeq_nil (names : List String) (pfxIndex : List (Nat × Nat)) :
    decodeSeq names pfxIndex [] = some [] := rfl

theorem decodeSeq_cons_iff {names : List String} {pfxIndex : List (Nat × Nat)}
    {e : PropertyDef} {l : List PropertyDef} {s : List (List String × String)} :
    decodeSeq names pfxIndex (e :: l) = some s ↔
      ∃ x xs, decodeSP names pfxIndex e = some x ∧
        decodeSeq names pfxIndex l = some xs ∧ s = x :: xs := by
  simp only [decodeSeq, List.mapM_cons, Option.bind_eq_bind, Option.bind_eq_some,
    Option.pure_def, Option.some.injEq]
  constructor
  · rintro ⟨x, hx, xs, hxs, h⟩
    exact ⟨x, xs, hx, hxs, h.symm⟩
  · rintro ⟨x, xs, hx, hxs, rfl⟩
    exact ⟨x, hx, xs, hxs, rfl⟩

theorem decodeSeq_nil_inv {names : List String} {pfxIndex : List (Nat × Nat)} :
    ∀ {l : List PropertyDef}, decodeSeq names pfxIndex l = some [] → l = []
  | [], _ => rfl
  | e :: l, h => by
      rcases decodeSeq_cons_iff.mp h with ⟨x, xs, _, _, habs⟩
      cases habs

theorem decodeSeq_append_inv {names : List String} {pfxIndex : List (Nat × Nat)} :
    ∀ (s₁ : List (List String × String)) {s₂ : List (List String × String)}
      {l : List PropertyDef},
      decodeSeq names pfxIndex l = some (s₁ ++ s₂) →
      ∃ l₁ l₂, l = l₁ ++ l₂ ∧ decodeSeq names pfxIndex l₁ = some s₁ ∧
        decodeSeq names pfxIndex l₂ = some s₂
  | [], s₂, l, h => ⟨[], l, rfl, rfl, h⟩
  | x :: s₁, s₂, l, h => by
      cases l with
      | nil =>
          rw [decodeSeq_nil] at h
          cases h
      | cons e l =>
          rcases decodeSeq_cons_iff.mp h with ⟨x', xs, hd, hl, heq⟩
          cases heq
          obtain ⟨l₁, l₂, rfl, h₁, h₂⟩ := decodeSeq_append_inv s₁ hl
          exact ⟨e :: l₁, l₂, rfl, decodeSeq_cons_iff.mpr ⟨x, s₁, hd, h₁, rfl⟩, h₂⟩

theorem decodeSeq_append_intro {names : List String} {pfxIndex : List (Nat × Nat)}
    {l₁ l₂ : List PropertyDef} {s₁ s₂ : List (List String × String)}
    (h₁ : decodeSeq names pfxIndex l₁ = some s₁)
    (h₂ : decodeSeq names pfxIndex l₂ = some s₂) :
    decodeSeq names pfxIndex (l₁ ++ l₂) = some (s₁ ++ s₂) := by
  unfold decodeSeq at h₁ h₂ ⊢
  rw [List.mapM_append, h₁, h₂]
  rfl

theorem sig_path_shape : ∀ (base : List String) (ts : List PropTree)
    (s : List String × String), s ∈ sigList base ts → ∃ suf, s.1 = base ++ suf
  | _, [], s, h => by simp [sigList] at h
  | base, PropTree.leaf n v :: ts, s, h => by
      rw [sigList] at h
      rcases List.mem_cons.mp h with rfl | h'
      · exact ⟨[], by simp⟩
      · exact sig_path_shape base ts s h'
  | base, PropTree.comp n cs :: ts, s, h => by
      rw [sigList] at h
      rcases List.mem_append.mp h with h' | h'
      · obtain ⟨suf, hsuf⟩ := sig_path_shape (base ++ [n]) cs s h'
        exact ⟨[n] ++ suf, by simp [hsuf]⟩
      · exact sig_path_shape base ts s h'
termination_by _ ts _ _ => sizeOf ts
decreasing_by all_goals simp_wf <;> omega

theorem seq_none {names : List String} {pfxIndex : List (Nat × Nat)} :
    ∀ (ts : List PropTree) {l : List PropertyDef},
      seqList names pfxIndex none ts = some l → l = [] ∧ leafCount ts = 0
  | [], l, h => by
      rw [seqList] at h
      cases h
      exact ⟨rfl, by simp [leafCount]⟩
  | PropTree.leaf n v :: ts, l, h => by
      rw [seqList] at h
      simp at h
  | PropTree.comp n cs :: ts, l, h => by
      rw [seqList] at h
      simp only [Option.bind_eq_bind, Option.none_bind] at h
      rcases hinner : seqList names pfxIndex none cs with _ | l₁
      · rw [hinner] at h; cases h
      · rcases hrest : seqList names pfxIndex none ts with _ | l₂
        · rw [hinner, hrest] at h; cases h
        · rw [hinner, hrest] at h
          cases h
          obtain ⟨rfl, hc⟩ := seq_none cs hinner
          obtain ⟨rfl, ht⟩ := seq_none ts hrest
          exact ⟨rfl, by simp [leafCount, hc, ht]⟩
termination_by ts => sizeOf ts
decreasing_by all_goals simp_wf <;> omega

theorem seq_none_of_leafFree {names : List String} {pfxIndex : List (Nat × Nat)} :
    ∀ (ts : List PropTree) (pfx : Option Nat), leafCount ts = 0 →
      seqList names pfxIndex pfx ts = some []
  | [], _, _ => by rw [seqList]
  | PropTree.leaf n v :: ts, _, h => by
      rw [leafCount] at h
      omega
  | PropTree.comp n cs :: ts, pfx, h => by
      rw [leafCount] at h
      rw [seqList]
      have hc : leafCount cs = 0 := by omega
      have ht : leafCount ts = 0 := by omega
      rw [seq_none_of_leafFree cs _ hc, seq_none_of_leafFree ts pfx ht]
      rfl
termination_by ts _ _ => sizeOf ts
decreasing_by all_goals simp_wf <;> omega

/-- Forward direction: a successfully computed runtime sequence decodes to
the live class's name-level signature. -/
theorem seq_fwd {names : List String} {pfxIndex : List (Nat × Nat)}
    (wf : MetaWF names pfxIndex) :
    ∀ (ts : List PropTree) {p : Nat} {path : List String} {l : List PropertyDef},
      decodePrefixPath names pfxIndex p = some path →
      seqList names pfxIndex (some p) ts = some l →
      decodeSeq names pfxIndex l = some (sigList path ts)
  | [], p, path, l, hp, h => by
      rw [seqList] at h
      cases h
      rw [sigList]
      rfl
  | PropTree.leaf n v :: ts, p, path, l, hp, h => by
      rw [seqList] at h
      simp only [Option.bind_eq_bind, Option.some_bind] at h
      rcases hpid : getPropertyIDFromName names n with _ | pid
      · rw [hpid] at h; simp at h
      · rw [hpid] at h
        simp only [Option.some_bind] at h
        rcases hrest : seqList names pfxIndex (some p) ts with _ | rest
        · rw [hrest] at h; simp at h
        · rw [hrest] at h
          simp only [Option.some_bind, Option.pure_def, Option.some.injEq] at h
          subst h
          rw [sigList]
          refine decodeSeq_cons_iff.mpr ⟨(path, n), _, ?_, seq_fwd wf ts hp hrest, rfl⟩
          unfold decodeSP
          rw [hp, findIdx?_get?_of_eq_some hpid]
          rfl
  | PropTree.comp n cs :: ts, p, path, l, hp, h => by
      rw [seqList] at h
      simp only [Option.bind_eq_bind, Option.some_bind] at h
      rcases hinner : seqList names pfxIndex
          (getNestedPrefixID names pfxIndex p n) cs with _ | l₁
      · rw [hinner] at h; simp at h
      · rw [hinner] at h
        simp only [Option.some_bind] at h
        rcases hrest : seqList names pfxIndex (some p) ts with _ | l₂
        · rw [hrest] at h; simp at h
        · rw [hrest] at h
          simp only [Option.some_bind, Option.pure_def, Option.some.injEq] at h
          subst h
          rw [sigList]
          rcases hnp : getNestedPrefixID names pfxIndex p n with _ | q
          · rw [hnp] at hinner
            obtain ⟨rfl, hc⟩ := seq_none cs hinner
            have hsig : sigList (path ++ [n]) cs = [] := by
              have hlen := sigList_length (path ++ [n]) cs
              rw [hc] at hlen
              exact List.eq_nil_of_length_eq_zero hlen
            rw [hsig]
            simpa using seq_fwd wf ts hp hrest
          · rw [hnp] at hinner
            exact decodeSeq_append_intro
              (seq_fwd wf cs (getNested_fwd wf hnp hp) hinner)
              (seq_fwd wf ts hp hrest)
termination_by ts => sizeOf ts
decreasing_by all_goals simp_wf <;> omega

/-- Backward direction: if the stored sequence decodes to the live class's
signature, the runtime sequence computation reproduces it exactly. -/
theorem seq_bwd {names : List String} {pfxIndex : List (Nat × Nat)}
    (wf : MetaWF names pfxIndex) :
    ∀ (ts : List PropTree) {p : Nat} {path : List String} {l : List PropertyDef},
      decodePrefixPath names pfxIndex p = some path →
      decodeSeq names pfxIndex l = some (sigList path ts) →
      seqList names pfxIndex (some p) ts = some l
  | [], p, path, l, hp, h => by
      rw [sigList] at h
      rw [seqList, decodeSeq_nil_inv h]
  | PropTree.leaf n v :: ts, p, path, l, hp, h => by
      rw [sigList] at h
      rcases l with _ | ⟨e, l'⟩
      · rw [decodeSeq_nil] at h; cases h
      · rcases decodeSeq_cons_iff.mp h with ⟨x, xs, hd, hl, heq⟩
        obtain ⟨rfl, rfl⟩ : x = (path, n) ∧ xs = sigList path ts := by
          cases heq; exact ⟨rfl, rfl⟩
        unfold decodeSP at hd
        rcases hdp : decodePrefixPath names pfxIndex e.prefixID with _ | epath
        · rw [hdp] at hd; cases hd
        · rcases hnm : names.get? e.propID with _ | en
          · rw [hdp, hnm] at hd; cases hd
          · rw [hdp, hnm] at hd
            obtain ⟨hpe, hne⟩ : epath = path ∧ en = n := by
              cases hd; exact ⟨rfl, rfl⟩
            subst hpe; subst hne
            have hep : e.prefixID = p := decode_inj wf e.prefixID hdp hp
            have hpid : getPropertyIDFromName names en = some e.propID :=
              findIdx?_of_nodup_get? wf.nodupNames hnm
            rw [seqList]
            simp only [Option.bind_eq_bind, Option.some_bind]
            rw [hpid, seq_bwd wf ts hp hl]
            simp only [Option.some_bind, Option.pure_def, Option.some.injEq]
            rw [← hep]
  | PropTree.comp n cs :: ts, p, path, l, hp, h => by
      rw [sigList] at h
      obtain ⟨l₁, l₂, rfl, h₁, h₂⟩ := decodeSeq_append_inv _ h
      rw [seqList]
      simp only [Option.bind_eq_bind, Option.some_bind]
      rcases hnp : getNestedPrefixID names pfxIndex p n with _ | q
      · have hfree : leafCount cs = 0 := by
          by_contra hcon
          have hlen := sigList_length (path ++ [n]) cs
          rcases hsc : sigList (path ++ [n]) cs with _ | ⟨s₀, srest⟩
          · rw [hsc] at hlen; exact hcon hlen.symm
          · rw [hsc] at h₁
            rcases l₁ with _ | ⟨e, l₁'⟩
            · rw [decodeSeq_nil] at h₁; cases h₁
            · rcases decodeSeq_cons_iff.mp h₁ with ⟨x, xs, hd, -, heq⟩
              obtain rfl : x = s₀ := by cases heq; rfl
              have hmem : x ∈ sigList (path ++ [n]) cs := by
                rw [hsc]; exact List.mem_cons_self _ _
              obtain ⟨suf, hsuf⟩ := sig_path_shape (path ++ [n]) cs x hmem
              unfold decodeSP at hd
              rcases hdp : decodePrefixPath names pfxIndex e.prefixID with _ | epath
              · rw [hdp] at hd; cases hd
              · rcases hnm : names.get? e.propID with _ | en
                · rw [hdp, hnm] at hd; cases hd
                · rw [hdp, hnm] at hd
                  have hepath : epath = x.1 := by cases hd; rfl
                  rw [hepath, hsuf] at hdp
                  obtain ⟨r, hr⟩ := decode_ancestor suf hdp
                  exact Option.noConfusion (hnp ▸ getNested_bwd wf hr hp)
        have hsig : sigList (path ++ [n]) cs = [] := by
          have hlen := sigList_length (path ++ [n]) cs
          rw [hfree] at hlen
          exact List.eq_nil_of_length_eq_zero hlen
        rw [hsig] at h₁
        have hl₁ : l₁ = [] := decodeSeq_nil_inv h₁
        subst hl₁
        rw [seq_none_of_leafFree cs none hfree, seq_bwd wf ts hp h₂]
        rfl
      · have hq : decodePrefixPath names pfxIndex q = some (path ++ [n]) :=
          getNested_fwd wf hnp hp
        rw [seq_bwd wf cs hq h₁, seq_bwd wf ts hp h₂]
        rfl
termination_by ts => sizeOf ts
decreasing_by all_goals simp_wf <;> omega

theorem decodeSeq_length {names : List String} {pfxIndex : List (Nat × Nat)} :
    ∀ {l : List PropertyDef} {s : List (List String × String)},
      decodeSeq names pfxIndex l = some s → l.length = s.length
  | [], s, h => by rw [decodeSeq_nil] at h; cases h; rfl
  | e :: l, s, h => by
      rcases decodeSeq_cons_iff.mp h with ⟨x, xs, -, hl, rfl⟩
      simp [decodeSeq_length hl]

theorem decodeSeq_get?_fwd {names : List String} {pfxIndex : List (Nat × Nat)} :
    ∀ {l : List PropertyDef} {s : List (List String × String)},
      decodeSeq names pfxIndex l = some s → ∀ {i : Nat} {e : PropertyDef},
        l.get? i = some e → ∃ x, s.get? i = some x ∧
          decodeSP names pfxIndex e = some x
  | [], s, h, i, e, hg => by cases hg
  | e' :: l, s, h, i, e, hg => by
      rcases decodeSeq_cons_iff.mp h with ⟨x, xs, hd, hl, rfl⟩
      cases i with
      | zero => cases hg; exact ⟨x, rfl, hd⟩
      | succ i => exact decodeSeq_get?_fwd hl hg

theorem decodeSeq_get?_bwd {names : List String} {pfxIndex : List (Nat × Nat)} :
    ∀ {l : List PropertyDef} {s : List (List String × String)},
      decodeSeq names pfxIndex l = some s → ∀ {i : Nat} {x : List String × String},
        s.get? i = some x → ∃ e, l.get? i = some e ∧
          decodeSP names pfxIndex e = some x
  | [], s, h, i, x, hg => by rw [decodeSeq_nil] at h; cases h; cases hg
  | e' :: l, s, h, i, x, hg => by
      rcases decodeSeq_cons_iff.mp h with ⟨x', xs, hd, hl, rfl⟩
      cases i with
      | zero => cases hg; exact ⟨e', rfl, hd⟩
      | succ i => exact decodeSeq_get?_bwd hl hg

/-- Shape of a successful single-property decode. -/
theorem decodeSP_shape {names : List String} {pfxIndex : List (Nat × Nat)}
    {e : PropertyDef} {x : List String × String}
    (h : decodeSP names pfxIndex e = some x) :
    decodePrefixPath names pfxIndex e.prefixID = some x.1 ∧
      names.get? e.propID = some x.2 := by
  unfold decodeSP at h
  rcases hdp : decodePrefixPath names pfxIndex e.prefixID with _ | epath
  · rw [hdp] at h; cases h
  · rcases hnm : names.get? e.propID with _ | en
    · rw [hdp, hnm] at h; cases h
    · rw [hdp, hnm] at h
      simp only [Option.bind_eq_bind, Option.some_bind, Option.pure_def,
        Option.some.injEq] at h
      subst h
      exact ⟨rfl, rfl⟩

/-- Two lists of equal length with pointwise-equal predicate values have
the same first-match index. -/
theorem findIdx?_congr {α β : Type _} {p : α → Bool} {q : β → Bool} :
    ∀ {l₁ : List α} {l₂ : List β}, l₁.length = l₂.length →
      (∀ i a b, l₁.get? i = some a → l₂.get? i = some b → p a = q b) →
      l₁.findIdx? p = l₂.findIdx? q
  | [], [], _, _ => rfl
  | [], b :: l₂, hlen, _ => by cases hlen
  | a :: l₁, [], hlen, _ => by cases hlen
  | a :: l₁, b :: l₂, hlen, hpt => by
      have hab : p a = q b := hpt 0 a b rfl rfl
      rw [List.findIdx?_cons, List.findIdx?_cons, hab]
      by_cases hb : q b = true
      · rw [hb]; simp
      · rw [Bool.not_eq_true] at hb
        rw [hb]
        simp only [Bool.false_eq_true, if_false, List.findIdx?_start_succ]
        rw [findIdx?_congr (by simpa using hlen)
          (fun i a' b' ha hb' => hpt (i + 1) a' b' ha hb')]

/-- The spec-side value of one slow-path leaf restoration: look the leaf's
(path, name) up in the decoded stored signature and read the stored value
through the offset table; absent or unreadable entries leave the live value. -/
def slowSpecLeaf (sig : List (List String × String)) (data : List Value)
    (offsets : List Nat) (path : List String) (n : String) (old : Value) : Value :=
  match sig.findIdx? (· == (path, n)) with
  | none => old
  | some i =>
      match (offsets.get? i).bind (fun o => data.get? o) with
      | some v => v
      | none => old

/-- The spec-side slow-path restoration: every leaf is restored
independently by (path, name) lookup. -/
def slowSpec (sig : List (List String × String)) (data : List Value)
    (offsets : List Nat) : List String → List PropTree → List PropTree
  | _, [] => []
  | path, PropTree.leaf n v :: ts =>
      PropTree.leaf n (slowSpecLeaf sig data offsets path n v) ::
        slowSpec sig data offsets path ts
  | path, PropTree.comp n cs :: ts =>
      PropTree.comp n (slowSpec sig data offsets (path ++ [n]) cs) ::
        slowSpec sig data offsets path ts
termination_by _ ts => sizeOf ts
decreasing_by all_goals simp_wf <;> omega

theorem slowLeaf_correspond {names : List String} {pfxIndex : List (Nat × Nat)}
    {cdProps : List PropertyDef} {sig : List (List String × String)}
    {data : List Value} {offsets : List Nat}
    (wf : MetaWF names pfxIndex)
    (hdec : decodeSeq names pfxIndex cdProps = some sig)
    {q : Nat} {path : List String}
    (hq : decodePrefixPath names pfxIndex q = some path) (n : String) (old : Value) :
    slowLeafValue ⟨names, pfxIndex, cdProps, data, offsets⟩ (some q) n old
      = slowSpecLeaf sig data offsets path n old := by
  have hstep : slowLeafValue ⟨names, pfxIndex, cdProps, data, offsets⟩ (some q) n old =
      (if (cdProps.all fun sp => sp.prefixID != q) = true then old
       else
         match getPropertyIDFromName names n with
         | none => old
         | some pid =>
             match cdProps.findIdx? (fun sp => sp.prefixID == q && sp.propID == pid) with
             | none => old
             | some i =>
                 if i < cdProps.length then
                   match (offsets.get? i).bind (fun o => data.get? o) with
                   | some v => v
                   | none => old
                 else old) := rfl
  rw [hstep]
  unfold slowSpecLeaf
  by_cases hall : cdProps.all (fun sp => sp.prefixID != q) = true
  · rw [if_pos hall]
    rcases hfi : sig.findIdx? (· == (path, n)) with _ | i
    · rfl
    · exfalso
      have hsig : sig.get? i = some (path, n) := findIdx?_get?_of_eq_some hfi
      obtain ⟨e, hge, hde⟩ := decodeSeq_get?_bwd hdec hsig
      obtain ⟨hdp, -⟩ := decodeSP_shape hde
      have heq : e.prefixID = q := decode_inj wf e.prefixID hdp hq
      have := List.all_eq_true.mp hall e (List.get?_mem hge)
      rw [heq] at this
      simp at this
  · rw [if_neg hall]
    rcases hpid : getPropertyIDFromName names n with _ | pid
    · simp only [hpid]
      rcases hfi : sig.findIdx? (· == (path, n)) with _ | i
      · rfl
      · exfalso
        have hsig : sig.get? i = some (path, n) := findIdx?_get?_of_eq_some hfi
        obtain ⟨e, hge, hde⟩ := decodeSeq_get?_bwd hdec hsig
        obtain ⟨-, hnm⟩ := decodeSP_shape hde
        have hmem : n ∈ names := List.get?_mem hnm
        have := List.findIdx?_eq_none_iff.mp hpid n hmem
        simp at this
    · have hnmpid : names.get? pid = some n := findIdx?_get?_of_eq_some hpid
      have hcongr : cdProps.findIdx? (fun sp => sp.prefixID == q && sp.propID == pid)
          = sig.findIdx? (· == (path, n)) := by
        apply findIdx?_congr (decodeSeq_length hdec)
        intro i e x hge hgx
        obtain ⟨x', hgx', hde⟩ := decodeSeq_get?_fwd hdec hge
        rw [hgx] at hgx'
        cases hgx'
        obtain ⟨hdp, hnm⟩ := decodeSP_shape hde
        rw [Bool.eq_iff_iff]
        simp only [Bool.and_eq_true, beq_iff_eq]
        constructor
        · rintro ⟨hpq, hppid⟩
          have h1 : x.1 = path := by
            rw [hpq] at hdp
            exact Option.some.inj (hdp.symm.trans hq)
          have h2 : x.2 = n := by
            rw [hppid] at hnm
            exact Option.some.inj (hnm.symm.trans hnmpid)
          exact Prod.ext h1 h2
        · intro hx
          subst hx
          refine ⟨decode_inj wf e.prefixID hdp hq, ?_⟩
          exact List.getElem?_inj (get?_some_lt hnm) wf.nodupNames
            (by rw [← List.get?_eq_getElem?, ← List.get?_eq_getElem?, hnm, hnmpid])
      simp only [hpid, hcongr]
      rcases hfi : sig.findIdx? (· == (path, n)) with _ | i
      · rfl
      · have hlt : i < cdProps.length := by
          rw [decodeSeq_length hdec]
          obtain ⟨hlt, -, -⟩ := List.findIdx?_eq_some_iff_getElem.mp hfi
          exact hlt
        simp [hlt]

/-- Slow-path restoration coincides, leaf by leaf, with independent
(path, name) lookup into the decoded stored definition. -/
theorem slowList_correspond {names : List String} {pfxIndex : List (Nat × Nat)}
    {cdProps : List PropertyDef} {sig : List (List String × String)}
    (data : List Value) (offsets : List Nat)
    (wf : MetaWF names pfxIndex)
    (hdec : decodeSeq names pfxIndex cdProps = some sig) :
    ∀ (ts : List PropTree) (pfx : Option Nat) (path : List String),
      ((∃ q, pfx = some q ∧ decodePrefixPath names pfxIndex q = some path) ∨
        (pfx = none ∧ ∀ r, decodePrefixPath names pfxIndex r ≠ some path)) →
      slowList ⟨names, pfxIndex, cdProps, data, offsets⟩ pfx ts
        = slowSpec sig data offsets path ts
  | [], pfx, path, hinv => by rw [slowList, slowSpec]
  | PropTree.leaf n v :: ts, pfx, path, hinv => by
      rw [slowList, slowSpec]
      rcases hinv with ⟨q, rfl, hq⟩ | ⟨rfl, hnone⟩
      · rw [slowLeaf_correspond wf hdec hq,
          slowList_correspond data offsets wf hdec ts _ path (Or.inl ⟨q, rfl, hq⟩)]
      · have hspec : slowSpecLeaf sig data offsets path n v = v := by
          unfold slowSpecLeaf
          rcases hfi : sig.findIdx? (· == (path, n)) with _ | i
          · rfl
          · exfalso
            have hsig : sig.get? i = some (path, n) := findIdx?_get?_of_eq_some hfi
            obtain ⟨e, -, hde⟩ := decodeSeq_get?_bwd hdec hsig
            exact hnone e.prefixID (decodeSP_shape hde).1
        rw [hspec, slowList_correspond data offsets wf hdec ts _ path (Or.inr ⟨rfl, hnone⟩)]
        rfl
  | PropTree.comp n cs :: ts, pfx, path, hinv => by
      rw [slowList, slowSpec]
      have hrest := slowList_correspond data offsets wf hdec ts pfx path hinv
      rcases hinv with ⟨q, rfl, hq⟩ | ⟨rfl, hnone⟩
      · rcases hnp : getNestedPrefixID names pfxIndex q n with _ | q'
        · have hnone' : ∀ r, decodePrefixPath names pfxIndex r ≠ some (path ++ [n]) := by
            intro r hr
            exact Option.noConfusion (hnp ▸ getNested_bwd wf hr hq)
          have hcs := slowList_correspond data offsets wf hdec cs none (path ++ [n])
            (Or.inr ⟨rfl, hnone'⟩)
          simp only [Option.some_bind, hnp]
          rw [hcs, hrest]
        · have hq' : decodePrefixPath names pfxIndex q' = some (path ++ [n]) :=
            getNested_fwd wf hnp hq
          have hcs := slowList_correspond data offsets wf hdec cs (some q') (path ++ [n])
            (Or.inl ⟨q', rfl, hq'⟩)
          simp only [Option.some_bind, hnp]
          rw [hcs, hrest]
      · have hnone' : ∀ r, decodePrefixPath names pfxIndex r ≠ some (path ++ [n]) := by
          intro r hr
          obtain ⟨r', hr'⟩ := decode_ancestor [n] hr
          exact hnone r' hr'
        have hcs := slowList_correspond data offsets wf hdec cs none (path ++ [n])
          (Or.inr ⟨rfl, hnone'⟩)
        simp only [Option.none_bind]
        rw [hcs, hrest]
termination_by ts _ _ _ => sizeOf ts
decreasing_by all_goals simp_wf <;> omega

theorem phaseA_spec (m : ClassMetadata) (resolve : String → Option Actor) :
    ∀ sads : List SpawnedActorData,
      (∀ e ∈ (phaseA m resolve sads).2.2, ∃ g, e = REvent.respawn g) ∧
      (∀ sad ∈ sads, (respawnActor sad m resolve).isSome →
        REvent.respawn sad.guid ∈ (phaseA m resolve sads).2.2 ∧
        sad.guid ∈ (phaseA m resolve sads).2.1)
  | [] => by simp [phaseA]
  | sad :: rest => by
      have ih := phaseA_spec m resolve rest
      simp only [phaseA]
      cases hr : respawnActor sad m resolve with
      | some actor =>
          refine ⟨?_, ?_⟩
          · intro e he
            rcases List.mem_cons.mp he with rfl | he'
            · exact ⟨sad.guid, rfl⟩
            · exact ih.1 e he'
          · intro s hs _
            rcases List.mem_cons.mp hs with rfl | hs'
            · exact ⟨List.mem_cons_self _ _, List.mem_cons_self _ _⟩
            · rcases ih.2 s hs' (by assumption) with ⟨h1, h2⟩
              exact ⟨List.mem_cons_of_mem _ h1, List.mem_cons_of_mem _ h2⟩
      | none =>
          refine ⟨ih.1, ?_⟩
          intro s hs hsome
          rcases List.mem_cons.mp hs with rfl | hs'
          · rw [hr] at hsome; cases hsome
          · exact ih.2 s hs' hsome

theorem phaseB_spec : ∀ (as : List Actor) (ld : LevelData) (table : List Guid),
    ∀ e ∈ (phaseB ld table as).2.2, ∃ n ks, e = REvent.restoreEnt n ks ∧
      ∀ x ∈ table, x ∈ ks
  | [], _, _ => by simp [phaseB]
  | a :: rest, ld, table => by
      intro e he
      simp only [phaseB] at he
      by_cases hp : a.isPersistent = true
      · rw [if_pos hp] at he
        rcases List.mem_cons.mp he with rfl | he'
        · exact ⟨a.name, table, rfl, fun x hx => hx⟩
        · rcases phaseB_spec rest _ _ e he' with ⟨n, ks, rfl, hsub⟩
          refine ⟨n, ks, rfl, fun x hx => hsub x ?_⟩
          by_cases hgg : (getGuidProperty (restoreActor a ld).1 != 0) = true
          · rw [if_pos hgg]; exact List.mem_append_left _ hx
          · rw [if_neg hgg]; exact hx
      · rw [if_neg hp] at he
        exact phaseB_spec rest _ _ e he

theorem phaseC_spec : ∀ (ns : List String) (as : List Actor),
    ∀ e ∈ (phaseC ns as).2, ∃ n, e = REvent.destroyEnt n
  | [], _ => by simp [phaseC]
  | n :: rest, as => by
      intro e he
      simp only [phaseC] at he
      rcases List.mem_cons.mp he with rfl | he'
      · exact ⟨n, rfl⟩
      · exact phaseC_spec rest _ e he'

theorem findIdx?_append_of_some {α : Type _} {l ext : List α} {p : α → Bool}
    {i : Nat} (h : l.findIdx? p = some i) : (l ++ ext).findIdx? p = some i := by
  rw [List.findIdx?_append, h]
  rfl

theorem getName_append_of_some {names en : List String} {n : String} {pid : Nat}
    (h : getPropertyIDFromName names n = some pid) :
    getPropertyIDFromName (names ++ en) n = some pid :=
  findIdx?_append_of_some h

theorem getNested_append_of_some {names en : List String}
    {pfxIndex ep : List (Nat × Nat)} {p q : Nat} {n : String}
    (h : getNestedPrefixID names pfxIndex p n = some q) :
    getNestedPrefixID (names ++ en) (pfxIndex ++ ep) p n = some q := by
  rcases hpid : getPropertyIDFromName names n with _ | pid
  · unfold getNestedPrefixID at h
    rw [hpid] at h
    cases h
  · have hq' : Option.map (· + 1) (pfxIndex.findIdx? (· == (p, pid))) = some q := by
      simpa only [getNestedPrefixID, hpid] using h
    obtain ⟨i, hfi, hiq⟩ := Option.map_eq_some'.mp hq'
    simp only [getNestedPrefixID, getName_append_of_some hpid,
      findIdx?_append_of_some hfi, Option.map_some']
    rw [hiq]

/-- A successfully computed runtime sequence is stable under extending the
interning tables. -/
theorem seqList_append_of_some {names en : List String}
    {pfxIndex ep : List (Nat × Nat)} :
    ∀ (ts : List PropTree) (pfx : Option Nat) {l : List PropertyDef},
      seqList names pfxIndex pfx ts = some l →
      seqList (names ++ en) (pfxIndex ++ ep) pfx ts = some l
  | [], pfx, l, h => by
      rw [seqList] at h ⊢
      exact h
  | PropTree.leaf n v :: ts, pfx, l, h => by
      rw [seqList] at h ⊢
      simp only [Option.bind_eq_bind] at h ⊢
      rcases pfx with _ | p
      · simp at h
      · simp only [Option.some_bind] at h ⊢
        rcases hpid : getPropertyIDFromName names n with _ | pid
        · rw [hpid] at h; simp at h
        · rw [hpid] at h
          simp only [Option.some_bind] at h
          rcases hrest : seqList names pfxIndex (some p) ts with _ | rest
          · rw [hrest] at h; simp at h
          · rw [hrest] at h
            rw [getName_append_of_some hpid, seqList_append_of_some ts _ hrest]
            exact h
  | PropTree.comp n cs :: ts, pfx, l, h => by
      rw [seqList] at h ⊢
      simp only [Option.bind_eq_bind] at h ⊢
      rcases hinner : seqList names pfxIndex
          (pfx.bind fun p => getNestedPrefixID names pfxIndex p n) cs with _ | l₁
      · rw [hinner] at h; simp at h
      · rw [hinner] at h
        simp only [Option.some_bind] at h
        rcases hrest : seqList names pfxIndex pfx ts with _ | l₂
        · rw [hrest] at h; simp at h
        · rw [hrest] at h
          rw [seqList_append_of_some ts pfx hrest]
          rcases pfx with _ | p
          · simp only [Option.none_bind] at hinner ⊢
            rw [seqList_append_of_some cs none hinner]
            exact h
          · simp only [Option.some_bind] at hinner ⊢
            rcases hnp : getNestedPrefixID names pfxIndex p n with _ | q
            · rw [hnp] at hinner
              obtain ⟨rfl, hfree⟩ := seq_none cs hinner
              rw [seq_none_of_leafFree cs _ hfree]
              exact h
            · rw [hnp] at hinner
              rw [getNested_append_of_some hnp,
                seqList_append_of_some cs _ hinner]
              exact h
termination_by ts _ => sizeOf ts
decreasing_by all_goals simp_wf <;> omega

/-- The interning state invariant maintained by the write-mode traversal:
well-formed tables, and every already-registered property decodes. -/
structure SnapInv (st : SnapState) : Prop where
  wf : MetaWF st.names st.pfxIndex
  closed : ∀ e ∈ st.props, ∃ s, decodeSP st.names st.pfxIndex e = some s

theorem findOrAddPropertyID_ext (names : List String) (n : String) :
    ∃ ext, (findOrAddPropertyID names n).2 = names ++ ext := by
  unfold findOrAddPropertyID
  rcases h : names.findIdx? (· == n) with _ | i
  · exact ⟨[n], rfl⟩
  · exact ⟨[], by simp⟩

theorem findOrAddPropertyID_get (names : List String) (n : String) :
    (findOrAddPropertyID names n).2.get? (findOrAddPropertyID names n).1 = some n := by
  unfold findOrAddPropertyID
  rcases h : names.findIdx? (· == n) with _ | i
  · simp only
    rw [List.get?_append_right (Nat.le_refl _)]
    simp
  · simp only
    exact findIdx?_get?_of_eq_some h

theorem findOrAddPropertyID_nodup {names : List String} (n : String)
    (h : names.Nodup) : (findOrAddPropertyID names n).2.Nodup := by
  unfold findOrAddPropertyID
  rcases hf : names.findIdx? (· == n) with _ | i
  · simp only
    rw [List.nodup_append]
    refine ⟨h, List.nodup_singleton n, ?_⟩
    intro x hx hx'
    rw [List.mem_singleton] at hx'
    subst hx'
    have := List.findIdx?_eq_none_iff.mp hf x hx
    simp at this
  · exact h

theorem findOrAddPropertyID_le (names : List String) (n : String) :
    names.length ≤ (findOrAddPropertyID names n).2.length := by
  obtain ⟨ext, hext⟩ := findOrAddPropertyID_ext names n
  rw [hext]
  simp

theorem findOrAddPropertyID_lt (names : List String) (n : String) :
    (findOrAddPropertyID names n).1 < (findOrAddPropertyID names n).2.length := by
  unfold findOrAddPropertyID
  rcases h : names.findIdx? (· == n) with _ | i
  · simp
  · simp only
    exact get?_some_lt (findIdx?_get?_of_eq_some h)

theorem decodeSP_after_ext {names en : List String} {pfxIndex ep : List (Nat × Nat)}
    {e : PropertyDef} {s : List String × String}
    (hn : (names ++ en) = names') (hp : (pfxIndex ++ ep) = pfxIndex')
    (h : decodeSP names pfxIndex e = some s) :
    decodeSP names' pfxIndex' e = some s := by
  subst hn hp
  exact decodeSP_append h

/-- Step lemma for allocating a nested prefix during the write traversal. -/
theorem findOrAddNestedPrefixID_spec (st : SnapState) (pfx : Nat) (n : String)
    (path : List String)
    (hwf : MetaWF st.names st.pfxIndex)
    (hp : decodePrefixPath st.names st.pfxIndex pfx = some path) :
    (∃ en ep, (findOrAddNestedPrefixID st pfx n).2.names = st.names ++ en ∧
       (findOrAddNestedPrefixID st pfx n).2.pfxIndex = st.pfxIndex ++ ep) ∧
    (findOrAddNestedPrefixID st pfx n).2.props = st.props ∧
    (findOrAddNestedPrefixID st pfx n).2.data = st.data ∧
    (findOrAddNestedPrefixID st pfx n).2.offsets = st.offsets ∧
    MetaWF (findOrAddNestedPrefixID st pfx n).2.names
      (findOrAddNestedPrefixID st pfx n).2.pfxIndex ∧
    decodePrefixPath (findOrAddNestedPrefixID st pfx n).2.names
      (findOrAddNestedPrefixID st pfx n).2.pfxIndex
      (findOrAddNestedPrefixID st pfx n).1 = some (path ++ [n]) := by
  have hple : pfx ≤ st.pfxIndex.length := decode_le_length hp
  obtain ⟨ext, hext⟩ := findOrAddPropertyID_ext st.names n
  have hget := findOrAddPropertyID_get st.names n
  have hlt := findOrAddPropertyID_lt st.names n
  have hnodup := findOrAddPropertyID_nodup n hwf.nodupNames
  simp only [findOrAddNestedPrefixID]
  rcases hfi : st.pfxIndex.findIdx? (· == (pfx, (findOrAddPropertyID st.names n).1))
    with _ | i
  · simp only
    have hnotmem : (pfx, (findOrAddPropertyID st.names n).1) ∉ st.pfxIndex := by
      intro hmem
      have := List.findIdx?_eq_none_iff.mp hfi _ hmem
      simp at this
    have hwf' : MetaWF (findOrAddPropertyID st.names n).2
        (st.pfxIndex ++ [(pfx, (findOrAddPropertyID st.names n).1)]) := by
      refine ⟨hnodup, ?_, ?_, ?_⟩
      · rw [List.nodup_append]
        exact ⟨hwf.nodupPfx, List.nodup_singleton _,
          fun x hx hx' => by rw [List.mem_singleton] at hx'; exact hnotmem (hx' ▸ hx)⟩
      · intro i pr h
        by_cases hi : i < st.pfxIndex.length
        · rw [List.get?_append hi] at h
          exact hwf.parentBound i pr h
        · rw [List.get?_append_right (Nat.le_of_not_lt hi)] at h
          rcases hd : i - st.pfxIndex.length with _ | j
          · rw [hd] at h
            cases h
            simpa using Nat.le_trans hple (Nat.le_of_not_lt hi)
          · rw [hd] at h
            cases h
      · intro i pr h
        by_cases hi : i < st.pfxIndex.length
        · rw [List.get?_append hi] at h
          calc pr.2 < st.names.length := hwf.pidBound i pr h
            _ ≤ _ := findOrAddPropertyID_le st.names n
        · rw [List.get?_append_right (Nat.le_of_not_lt hi)] at h
          rcases hd : i - st.pfxIndex.length with _ | j
          · rw [hd] at h
            cases h
            exact hlt
          · rw [hd] at h
            cases h
    refine ⟨⟨ext, [(pfx, (findOrAddPropertyID st.names n).1)], by rw [hext], rfl⟩,
      by trivial, by trivial, by trivial, hwf', ?_⟩
    have hg : (st.pfxIndex ++ [(pfx, (findOrAddPropertyID st.names n).1)]).get?
        st.pfxIndex.length = some (pfx, (findOrAddPropertyID st.names n).1) := by
      rw [List.get?_append_right (Nat.le_refl _)]
      simp
    exact decode_succ_intro hg hple
      (by
        have := @decode_append st.names ext st.pfxIndex
          [(pfx, (findOrAddPropertyID st.names n).1)] pfx path hp
        rw [← hext] at this
        exact this)
      hget
  · simp only
    have hentry : st.pfxIndex.get? i = some (pfx, (findOrAddPropertyID st.names n).1) :=
      findIdx?_get?_of_eq_some hfi
    have hwf' : MetaWF (findOrAddPropertyID st.names n).2 st.pfxIndex := by
      refine ⟨hnodup, hwf.nodupPfx, hwf.parentBound, ?_⟩
      intro j pr h
      calc pr.2 < st.names.length := hwf.pidBound j pr h
        _ ≤ _ := findOrAddPropertyID_le st.names n
    refine ⟨⟨ext, [], by rw [hext], by simp⟩, by trivial, by trivial, by trivial,
      hwf', ?_⟩
    have hb : pfx ≤ i := by
      have := hwf.parentBound i _ hentry
      simpa using this
    exact decode_succ_intro hentry hb
      (by
        have := @decode_append st.names ext st.pfxIndex [] pfx path hp
        rw [← hext, List.append_nil] at this
        exact this)
      hget

/-- Step lemma for the write-mode visit of one leaf property. -/
theorem snapLeaf_spec (st : SnapState) (pfx : Nat) (n : String) (v : Value)
    (path : List String)
    (hinv : SnapInv st)
    (hp : decodePrefixPath st.names st.pfxIndex pfx = some path)
    (hfresh : ∀ e ∈ st.props, ∀ s, decodeSP st.names st.pfxIndex e = some s →
        s ≠ (path, n)) :
    (∃ en, (snapLeaf st pfx n v).names = st.names ++ en) ∧
    (snapLeaf st pfx n v).pfxIndex = st.pfxIndex ∧
    (∃ pid, (snapLeaf st pfx n v).props = st.props ++ [⟨pfx, pid⟩] ∧
      getPropertyIDFromName (snapLeaf st pfx n v).names n = some pid ∧
      decodeSP (snapLeaf st pfx n v).names (snapLeaf st pfx n v).pfxIndex
        ⟨pfx, pid⟩ = some (path, n)) ∧
    (snapLeaf st pfx n v).data = st.data ++ [v] ∧
    (snapLeaf st pfx n v).offsets = st.offsets ++ [st.data.length] ∧
    SnapInv (snapLeaf st pfx n v) ∧
    decodePrefixPath (snapLeaf st pfx n v).names (snapLeaf st pfx n v).pfxIndex pfx
      = some path := by
  obtain ⟨ext, hext⟩ := findOrAddPropertyID_ext st.names n
  have hget := findOrAddPropertyID_get st.names n
  have hnodup := findOrAddPropertyID_nodup n hinv.wf.nodupNames
  have hdecs : decodePrefixPath (findOrAddPropertyID st.names n).2 st.pfxIndex pfx
      = some path := by
    have h := @decode_append st.names ext st.pfxIndex [] pfx path hp
    rw [← hext, List.append_nil] at h
    exact h
  have hnc : st.props.contains
      (⟨pfx, (findOrAddPropertyID st.names n).1⟩ : PropertyDef) = false := by
    by_contra hcon
    rw [Bool.not_eq_false, List.contains_eq_any_beq, List.any_eq_true] at hcon
    obtain ⟨e, hmem, hbeq⟩ := hcon
    have he : e = ⟨pfx, (findOrAddPropertyID st.names n).1⟩ := (eq_of_beq hbeq).symm
    subst he
    obtain ⟨s, hs⟩ := hinv.closed _ hmem
    obtain ⟨hs1, hs2⟩ := decodeSP_shape hs
    have hfound : st.names.get? (findOrAddPropertyID st.names n).1 = some n := by
      unfold findOrAddPropertyID at hs2 ⊢
      rcases hfi : st.names.findIdx? (· == n) with _ | i
      · rw [hfi] at hs2
        simp only at hs2
        rw [List.get?_eq_none.mpr (Nat.le_refl _)] at hs2
        cases hs2
      · exact findIdx?_get?_of_eq_some hfi
    have hs2n : s.2 = n := by
      rw [hfound] at hs2
      exact (Option.some.inj hs2).symm
    have hs1p : s.1 = path := by
      rw [hp] at hs1
      exact (Option.some.inj hs1).symm
    exact hfresh _ hmem s hs (by rw [← hs1p, ← hs2n])
  have hsnap : snapLeaf st pfx n v =
      { st with
          names := (findOrAddPropertyID st.names n).2,
          props := st.props ++ [⟨pfx, (findOrAddPropertyID st.names n).1⟩],
          offsets := st.offsets ++ [st.data.length],
          data := st.data ++ [v] } := by
    simp only [snapLeaf, hnc, Bool.false_eq_true, if_false]
  rw [hsnap]
  have hwf' : MetaWF (findOrAddPropertyID st.names n).2 st.pfxIndex := by
    refine ⟨hnodup, hinv.wf.nodupPfx, hinv.wf.parentBound, ?_⟩
    intro j pr h
    calc pr.2 < st.names.length := hinv.wf.pidBound j pr h
      _ ≤ _ := findOrAddPropertyID_le st.names n
  have hdsp : decodeSP (findOrAddPropertyID st.names n).2 st.pfxIndex
      ⟨pfx, (findOrAddPropertyID st.names n).1⟩ = some (path, n) := by
    unfold decodeSP
    rw [hdecs]
    simp only [Option.some_bind]
    rw [hget]
    rfl
  refine ⟨⟨ext, by rw [hext]⟩, rfl,
    ⟨(findOrAddPropertyID st.names n).1, rfl,
      findIdx?_of_nodup_get? hnodup hget, hdsp⟩, rfl, rfl, ?_, hdecs⟩
  refine ⟨hwf', ?_⟩
  intro e he
  rcases List.mem_append.mp he with he' | he'
  · obtain ⟨s, hs⟩ := hinv.closed e he'
    exact ⟨s, decodeSP_after_ext (by rw [hext]) (List.append_nil _) hs⟩
  · rw [List.mem_singleton] at he'
    subst he'
    exact ⟨(path, n), hdsp⟩

/-- Main induction for the write-mode traversal: starting from a
well-formed interning state whose already-registered properties are
disjoint from the forest's signature, the traversal extends the tables,
appends to the class definition exactly the stored property sequence that
the read-mode `seqList` recomputes on the final tables, appends the leaf
values to the blob, and the appended sequence decodes to the forest's
name-level signature. -/
theorem snapList_spec :
    ∀ (ts : List PropTree) (pfx : Nat) (st : SnapState) (path : List String),
      SnapInv st →
      decodePrefixPath st.names st.pfxIndex pfx = some path →
      (sigList path ts).Nodup →
      (∀ e ∈ st.props, ∀ s, decodeSP st.names st.pfxIndex e = some s →
          s ∉ sigList path ts) →
      SnapInv (snapList pfx ts st) ∧
      (∃ en ep, (snapList pfx ts st).names = st.names ++ en ∧
         (snapList pfx ts st).pfxIndex = st.pfxIndex ++ ep) ∧
      (∃ ds, (snapList pfx ts st).props = st.props ++ ds ∧
         seqList (snapList pfx ts st).names (snapList pfx ts st).pfxIndex
           (some pfx) ts = some ds ∧
         decodeSeq (snapList pfx ts st).names (snapList pfx ts st).pfxIndex ds
           = some (sigList path ts)) ∧
      (snapList pfx ts st).data = st.data ++ leafVals ts
  | [], pfx, st, path, hinv, hp, hnd, hfresh => by
      simp only [snapList]
      refine ⟨hinv, ⟨[], [], by simp, by simp⟩,
        ⟨[], by simp, by rw [seqList], ?_⟩, by rw [leafVals]; simp⟩
      rw [sigList]
      exact decodeSeq_nil _ _
  | PropTree.leaf n v :: ts, pfx, st, path, hinv, hp, hnd, hfresh => by
      rw [sigList] at hnd hfresh
      rw [List.nodup_cons] at hnd
      obtain ⟨hnotmem, hndts⟩ := hnd
      have hfresh0 : ∀ e ∈ st.props, ∀ s,
          decodeSP st.names st.pfxIndex e = some s → s ≠ (path, n) := by
        intro e he s hs hcon
        refine hfresh e he s hs ?_
        rw [hcon]
        exact List.mem_cons_self _ _
      obtain ⟨⟨en₀, hen₀⟩, hpfx₀, ⟨pid, hprops₀, hpid₀, hdsp₀⟩, hdata₀, hoff₀,
        hinv₀, hdec₀⟩ := snapLeaf_spec st pfx n v path hinv hp hfresh0
      have hfresh₁ : ∀ e ∈ (snapLeaf st pfx n v).props, ∀ s,
          decodeSP (snapLeaf st pfx n v).names (snapLeaf st pfx n v).pfxIndex e
            = some s → s ∉ sigList path ts := by
        intro e he s hs
        rw [hprops₀] at he
        rcases List.mem_append.mp he with he' | he'
        · obtain ⟨s₀, hs₀⟩ := hinv.closed e he'
          have hs₀' : decodeSP (snapLeaf st pfx n v).names
              (snapLeaf st pfx n v).pfxIndex e = some s₀ :=
            decodeSP_after_ext hen₀.symm (by rw [List.append_nil, hpfx₀]) hs₀
          have hss : s = s₀ := by
            rw [hs₀'] at hs
            exact (Option.some.inj hs).symm
          intro hmem
          exact hfresh e he' s₀ hs₀ (List.mem_cons_of_mem _ (hss ▸ hmem))
        · rw [List.mem_singleton] at he'
          subst he'
          have hss : s = (path, n) := by
            rw [hdsp₀] at hs
            exact (Option.some.inj hs).symm
          intro hmem
          exact hnotmem (hss ▸ hmem)
      obtain ⟨hinvF, ⟨en₁, ep₁, hen₁, hep₁⟩, ⟨ds, hpropsF, hseqF, hdecF⟩, hdataF⟩ :=
        snapList_spec ts pfx (snapLeaf st pfx n v) path hinv₀ hdec₀ hndts hfresh₁
      simp only [snapList]
      refine ⟨hinvF, ⟨en₀ ++ en₁, ep₁, ?_, ?_⟩,
        ⟨⟨pfx, pid⟩ :: ds, ?_, ?_, ?_⟩, ?_⟩
      · rw [hen₁, hen₀, List.append_assoc]
      · rw [hep₁, hpfx₀]
      · rw [hpropsF, hprops₀, List.append_assoc]
        rfl
      · rw [seqList]
        have hpidF : getPropertyIDFromName
            (snapList pfx ts (snapLeaf st pfx n v)).names n = some pid := by
          rw [hen₁]
          exact getName_append_of_some hpid₀
        simp only [Option.bind_eq_bind, Option.some_bind, hpidF, hseqF,
          Option.pure_def]
      · rw [sigList]
        have hdspF : decodeSP (snapList pfx ts (snapLeaf st pfx n v)).names
            (snapList pfx ts (snapLeaf st pfx n v)).pfxIndex ⟨pfx, pid⟩
            = some (path, n) :=
          decodeSP_after_ext hen₁.symm hep₁.symm hdsp₀
        exact decodeSeq_cons_iff.mpr ⟨(path, n), sigList path ts, hdspF, hdecF, rfl⟩
      · rw [leafVals, hdataF, hdata₀, List.append_assoc]
        rfl
  | PropTree.comp n cs :: ts, pfx, st, path, hinv, hp, hnd, hfresh => by
      rw [sigList] at hnd hfresh
      rw [List.nodup_append] at hnd
      obtain ⟨hndcs, hndts, hdisj⟩ := hnd
      obtain ⟨⟨en₀, ep₀, hen₀, hep₀⟩, hprops₀, hdata₀, hoff₀, hwf₀, hdecq⟩ :=
        findOrAddNestedPrefixID_spec st pfx n path hinv.wf hp
      have hinv₁ : SnapInv (findOrAddNestedPrefixID st pfx n).2 := by
        refine ⟨hwf₀, ?_⟩
        intro e he
        rw [hprops₀] at he
        obtain ⟨s, hs⟩ := hinv.closed e he
        exact ⟨s, decodeSP_after_ext hen₀.symm hep₀.symm hs⟩
      have hfresh₁ : ∀ e ∈ (findOrAddNestedPrefixID st pfx n).2.props, ∀ s,
          decodeSP (findOrAddNestedPrefixID st pfx n).2.names
            (findOrAddNestedPrefixID st pfx n).2.pfxIndex e = some s →
          s ∉ sigList (path ++ [n]) cs := by
        intro e he s hs
        rw [hprops₀] at he
        obtain ⟨s₀, hs₀⟩ := hinv.closed e he
        have hs₀' := decodeSP_after_ext hen₀.symm hep₀.symm hs₀
        have hss : s = s₀ := by
          rw [hs₀'] at hs
          exact (Option.some.inj hs).symm
        intro hmem
        exact hfresh e he s₀ hs₀ (List.mem_append_left _ (hss ▸ hmem))
      obtain ⟨hinv₂, ⟨en₁, ep₁, hen₁, hep₁⟩, ⟨dcs, hprops₂, hseq₂, hdec₂⟩, hdata₂⟩ :=
        snapList_spec cs (findOrAddNestedPrefixID st pfx n).1
          (findOrAddNestedPrefixID st pfx n).2 (path ++ [n]) hinv₁ hdecq hndcs hfresh₁
      have hdecp₂ : decodePrefixPath
          (snapList (findOrAddNestedPrefixID st pfx n).1 cs
            (findOrAddNestedPrefixID st pfx n).2).names
          (snapList (findOrAddNestedPrefixID st pfx n).1 cs
            (findOrAddNestedPrefixID st pfx n).2).pfxIndex pfx = some path := by
        rw [hen₁, hep₁, hen₀, hep₀]
        exact decode_append pfx (decode_append pfx hp)
      have hfresh₂ : ∀ e ∈ (snapList (findOrAddNestedPrefixID st pfx n).1 cs
            (findOrAddNestedPrefixID st pfx n).2).props, ∀ s,
          decodeSP (snapList (findOrAddNestedPrefixID st pfx n).1 cs
              (findOrAddNestedPrefixID st pfx n).2).names
            (snapList (findOrAddNestedPrefixID st pfx n).1 cs
              (findOrAddNestedPrefixID st pfx n).2).pfxIndex e = some s →
          s ∉ sigList path ts := by
        intro e he s hs
        rw [hprops₂, hprops₀] at he
        rcases List.mem_append.mp he with he' | he'
        · obtain ⟨s₀, hs₀⟩ := hinv.closed e he'
          have hs₀' : decodeSP (snapList (findOrAddNestedPrefixID st pfx n).1 cs
                (findOrAddNestedPrefixID st pfx n).2).names
              (snapList (findOrAddNestedPrefixID st pfx n).1 cs
                (findOrAddNestedPrefixID st pfx n).2).pfxIndex e = some s₀ := by
            rw [hen₁, hep₁]
            exact decodeSP_append (decodeSP_after_ext hen₀.symm hep₀.symm hs₀)
          have hss : s = s₀ := by
            rw [hs₀'] at hs
            exact (Option.some.inj hs).symm
          intro hmem
          exact hfresh e he' s₀ hs₀ (List.mem_append_right _ (hss ▸ hmem))
        · obtain ⟨i, hi⟩ := List.get?_of_mem he'
          obtain ⟨x, hx, hdx⟩ := decodeSeq_get?_fwd hdec₂ hi
          have hsx : s = x := by
            rw [hdx] at hs
            exact (Option.some.inj hs).symm
          have hxmem : x ∈ sigList (path ++ [n]) cs := List.get?_mem hx
          intro hmem
          exact hdisj (hsx.symm ▸ hxmem) (hsx ▸ hmem)
      obtain ⟨hinvF, ⟨en₂, ep₂, hen₂, hep₂⟩, ⟨dts, hpropsF, hseqF, hdecF⟩, hdataF⟩ :=
        snapList_spec ts pfx (snapList (findOrAddNestedPrefixID st pfx n).1 cs
          (findOrAddNestedPrefixID st pfx n).2) path hinv₂ hdecp₂ hndts hfresh₂
      have hdecpF : decodePrefixPath
          (snapList pfx ts (snapList (findOrAddNestedPrefixID st pfx n).1 cs
            (findOrAddNestedPrefixID st pfx n).2)).names
          (snapList pfx ts (snapList (findOrAddNestedPrefixID st pfx n).1 cs
            (findOrAddNestedPrefixID st pfx n).2)).pfxIndex pfx = some path := by
        rw [hen₂, hep₂]
        exact decode_append pfx hdecp₂
      have hdecqF : decodePrefixPath
          (snapList pfx ts (snapList (findOrAddNestedPrefixID st pfx n).1 cs
            (findOrAddNestedPrefixID st pfx n).2)).names
          (snapList pfx ts (snapList (findOrAddNestedPrefixID st pfx n).1 cs
            (findOrAddNestedPrefixID st pfx n).2)).pfxIndex
          (findOrAddNestedPrefixID st pfx n).1 = some (path ++ [n]) := by
        rw [hen₂, hep₂]
        refine decode_append _ ?_
        rw [hen₁, hep₁]
        exact decode_append _ hdecq
      have hseqcsF : seqList
          (snapList pfx ts (snapList (findOrAddNestedPrefixID st pfx n).1 cs
            (findOrAddNestedPrefixID st pfx n).2)).names
          (snapList pfx ts (snapList (findOrAddNestedPrefixID st pfx n).1 cs
            (findOrAddNestedPrefixID st pfx n).2)).pfxIndex
          (some (findOrAddNestedPrefixID st pfx n).1) cs = some dcs := by
        rw [hen₂, hep₂]
        exact seqList_append_of_some cs _ hseq₂
      have hdec₂F : decodeSeq
          (snapList pfx ts (snapList (findOrAddNestedPrefixID st pfx n).1 cs
            (findOrAddNestedPrefixID st pfx n).2)).names
          (snapList pfx ts (snapList (findOrAddNestedPrefixID st pfx n).1 cs
            (findOrAddNestedPrefixID st pfx n).2)).pfxIndex dcs
          = some (sigList (path ++ [n]) cs) := by
        rw [hen₂, hep₂]
        exact decodeSeq_append hdec₂
      simp only [snapList]
      refine ⟨hinvF, ⟨en₀ ++ (en₁ ++ en₂), ep₀ ++ (ep₁ ++ ep₂), ?_, ?_⟩,
        ⟨dcs ++ dts, ?_, ?_, ?_⟩, ?_⟩
      · rw [hen₂, hen₁, hen₀, List.append_assoc, List.append_assoc]
      · rw [hep₂, hep₁, hep₀, List.append_assoc, List.append_assoc]
      · rw [hpropsF, hprops₂, hprops₀, List.append_assoc]
      · rw [seqList]
        have hq : getNestedPrefixID
            (snapList pfx ts (snapList (findOrAddNestedPrefixID st pfx n).1 cs
              (findOrAddNestedPrefixID st pfx n).2)).names
            (snapList pfx ts (snapList (findOrAddNestedPrefixID st pfx n).1 cs
              (findOrAddNestedPrefixID st pfx n).2)).pfxIndex pfx n
            = some (findOrAddNestedPrefixID st pfx n).1 :=
          getNested_bwd hinvF.wf hdecqF hdecpF
        simp only [Option.bind_eq_bind, Option.some_bind, hq, hseqcsF, hseqF,
          Option.pure_def]
      · rw [sigList]
        exact decodeSeq_append_intro hdec₂F hdecF
      · rw [leafVals, hdataF, hdata₂, hdata₀, List.append_assoc]
termination_by ts _ _ _ _ _ _ _ => sizeOf ts
decreasing_by all_goals simp_wf <;> omega

/-- Fast-path correctness: running the fast visitor over a forest of the
same shape as the snapshotted one, reading the snapshotted leaf values
sequentially from the blob, reproduces the snapshotted forest exactly. -/
theorem fast_correct :
    ∀ (ts ts₀ : List PropTree) (st : FastState),
      stripList ts = stripList ts₀ →
      (∀ i, i < leafCount ts → st.data.get? (st.it + i) = (leafVals ts₀).get? i) →
      (fastList ts st).1 = ts₀
  | [], ts₀, st, hstrip, hdata => by
      rw [stripList] at hstrip
      cases ts₀ with
      | nil => rw [fastList]
      | cons t ts₀ =>
          cases t <;> rw [stripList] at hstrip <;> cases hstrip
  | PropTree.leaf n v :: ts, ts₀, st, hstrip, hdata => by
      rw [stripList] at hstrip
      cases ts₀ with
      | nil => rw [stripList] at hstrip; cases hstrip
      | cons t ts₀ =>
          cases t with
          | comp n₀ cs₀ => rw [stripList] at hstrip; cases hstrip
          | leaf n₀ v₀ =>
              rw [stripList] at hstrip
              injection hstrip with h1 h2
              injection h1 with hn hv
              have h0 := hdata 0 (by rw [leafCount]; omega)
              rw [Nat.add_zero, leafVals] at h0
              have hcond : ∀ i, i < leafCount ts →
                  st.data.get? (st.it + 1 + i) = (leafVals ts₀).get? i := by
                intro i hi
                have h := hdata (i + 1) (by rw [leafCount]; omega)
                rw [leafVals] at h
                rw [show st.it + 1 + i = st.it + (i + 1) from by omega, h]
                rfl
              have hrec := fast_correct ts ts₀ { st with it := st.it + 1 } h2 hcond
              simp only [fastList]
              rw [hn, hrec, h0]
              rfl
  | PropTree.comp n cs :: ts, ts₀, st, hstrip, hdata => by
      rw [stripList] at hstrip
      cases ts₀ with
      | nil => rw [stripList] at hstrip; cases hstrip
      | cons t ts₀ =>
          cases t with
          | leaf n₀ v₀ => rw [stripList] at hstrip; cases hstrip
          | comp n₀ cs₀ =>
              rw [stripList] at hstrip
              injection hstrip with h1 h2
              injection h1 with hn hcs
              have hlc : leafCount cs = leafCount cs₀ := by
                rw [← leafCount_strip cs, hcs, leafCount_strip]
              have hlen : (leafVals cs₀).length = leafCount cs := by
                rw [leafVals_length, hlc]
              have hcondCs : ∀ i, i < leafCount cs →
                  st.data.get? (st.it + i) = (leafVals cs₀).get? i := by
                intro i hi
                have h := hdata i (by rw [leafCount]; omega)
                rw [leafVals] at h
                rw [h]
                exact List.get?_append (by rw [hlen]; exact hi)
              have hrecCs := fast_correct cs cs₀ st hcs hcondCs
              have hit := fastList_it cs st
              have hcondTs : ∀ i, i < leafCount ts →
                  (fastList cs st).2.data.get? ((fastList cs st).2.it + i)
                    = (leafVals ts₀).get? i := by
                intro i hi
                rw [hit.2, hit.1]
                have h := hdata (leafCount cs + i) (by rw [leafCount]; omega)
                rw [leafVals] at h
                rw [show st.it + leafCount cs + i = st.it + (leafCount cs + i) from by
                  omega, h]
                rw [List.get?_append_right (by rw [hlen]; omega)]
                have hidx : leafCount cs + i - (leafVals cs₀).length = i := by
                  rw [hlen]
                  omega
                rw [hidx]
              have hrecTs := fast_correct ts ts₀ (fastList cs st).2 h2 hcondTs
              simp only [fastList]
              rw [hn, hrecCs, hrecTs]
termination_by ts _ _ _ _ => sizeOf ts
decreasing_by all_goals simp_wf <;> omega

/-- Unfolding of RestoreCoreActorData on a well-formed version-1 archive. -/
theorem restoreCore_v1 (a : Actor) (h : Bool) (t v av : Nat) :
    restoreCoreActorData a
      [RawVal.u16 1, RawVal.rbool h, RawVal.rxform t, RawVal.rvec v, RawVal.rvec av] =
    (match a.root with
     | some rc =>
         if rc.movable && rc.simulatingPhysics && rc.isPrimitive then
           { a with hiddenInGame := h, transform := t,
                    root := some { rc with velocity := v, angularVelocity := av } }
         else { a with hiddenInGame := h, transform := t }
     | none => { a with hiddenInGame := h, transform := t }) := rfl

/-- `restoreCore_v1` specialised to an actor without a root component. -/
theorem restoreCore_v1_none (a : Actor) (h : Bool) (t v av : Nat)
    (hr : a.root = none) :
    restoreCoreActorData a
      [RawVal.u16 1, RawVal.rbool h, RawVal.rxform t, RawVal.rvec v, RawVal.rvec av] =
    { a with hiddenInGame := h, transform := t } := by
  rw [restoreCore_v1, hr]

/-- `restoreCore_v1` specialised to an actor with a root component. -/
theorem restoreCore_v1_some (a : Actor) (rc : RootComp) (h : Bool) (t v av : Nat)
    (hr : a.root = some rc) :
    restoreCoreActorData a
      [RawVal.u16 1, RawVal.rbool h, RawVal.rxform t, RawVal.rvec v, RawVal.rvec av] =
    (if rc.movable && rc.simulatingPhysics && rc.isPrimitive then
      { a with hiddenInGame := h, transform := t,
               root := some { rc with velocity := v, angularVelocity := av } }
    else { a with hiddenInGame := h, transform := t }) := by
  rw [restoreCore_v1, hr]

/-- Core-data round trip: restoring a core archive written from `a` onto
`e2` transfers the hidden flag and transform, leaves the reflected
properties, the callback flag and the custom state of `e2` alone, and
transfers the velocities onto a movable physics-simulating primitive
root. -/
theorem restoreCore_roundtrip (a e2 : Actor) :
    (restoreCoreActorData e2 (writeCoreActorData a)).hiddenInGame = a.hiddenInGame ∧
    (restoreCoreActorData e2 (writeCoreActorData a)).transform = a.transform ∧
    (restoreCoreActorData e2 (writeCoreActorData a)).props = e2.props ∧
    (restoreCoreActorData e2 (writeCoreActorData a)).implementsCallback
      = e2.implementsCallback ∧
    (restoreCoreActorData e2 (writeCoreActorData a)).customState = e2.customState ∧
    (∀ rc rc2, a.root = some rc → e2.root = some rc2 →
      (rc.movable && rc.simulatingPhysics && rc.isPrimitive) = true →
      (rc2.movable && rc2.simulatingPhysics && rc2.isPrimitive) = true →
      (restoreCoreActorData e2 (writeCoreActorData a)).root =
        some { rc2 with velocity := rc.velocity,
                        angularVelocity := rc.angularVelocity }) := by
  have hwn : a.root = none → writeCoreActorData a =
      [RawVal.u16 1, RawVal.rbool a.hiddenInGame, RawVal.rxform a.transform,
       RawVal.rvec 0, RawVal.rvec 0] := by
    intro ha
    unfold writeCoreActorData
    rw [ha]
  have hwsT : ∀ rc, a.root = some rc →
      (rc.movable && rc.simulatingPhysics && rc.isPrimitive) = true →
      writeCoreActorData a =
      [RawVal.u16 1, RawVal.rbool a.hiddenInGame, RawVal.rxform a.transform,
       RawVal.rvec rc.velocity, RawVal.rvec rc.angularVelocity] := by
    intro rc ha haf
    unfold writeCoreActorData
    rw [ha]
    simp only [haf, if_true]
  have hwsF : ∀ rc, a.root = some rc →
      (rc.movable && rc.simulatingPhysics && rc.isPrimitive) = false →
      writeCoreActorData a =
      [RawVal.u16 1, RawVal.rbool a.hiddenInGame, RawVal.rxform a.transform,
       RawVal.rvec 0, RawVal.rvec 0] := by
    intro rc ha haf
    unfold writeCoreActorData
    rw [ha]
    simp only [haf, Bool.false_eq_true, if_false]
  rcases ha : a.root with _ | rc
  · rcases he : e2.root with _ | rc2
    · have hre : restoreCoreActorData e2 (writeCoreActorData a) =
          { e2 with hiddenInGame := a.hiddenInGame, transform := a.transform } := by
        rw [hwn ha]
        exact restoreCore_v1_none e2 _ _ _ _ he
      rw [hre]
      refine ⟨rfl, rfl, rfl, rfl, rfl, ?_⟩
      intro rc' rc2' h1 h2
      cases h1
    · have hre : restoreCoreActorData e2 (writeCoreActorData a) =
          (if rc2.movable && rc2.simulatingPhysics && rc2.isPrimitive then
            { e2 with hiddenInGame := a.hiddenInGame, transform := a.transform,
                      root := some { rc2 with velocity := 0, angularVelocity := 0 } }
          else { e2 with hiddenInGame := a.hiddenInGame,
                         transform := a.transform }) := by
        rw [hwn ha]
        exact restoreCore_v1_some e2 rc2 _ _ _ _ he
      rw [hre]
      by_cases hef : (rc2.movable && rc2.simulatingPhysics && rc2.isPrimitive) = true
      · rw [if_pos hef]
        refine ⟨rfl, rfl, rfl, rfl, rfl, ?_⟩
        intro rc' rc2' h1 h2
        cases h1
      · rw [if_neg hef]
        refine ⟨rfl, rfl, rfl, rfl, rfl, ?_⟩
        intro rc' rc2' h1 h2
        cases h1
  · by_cases haf : (rc.movable && rc.simulatingPhysics && rc.isPrimitive) = true
    · rcases he : e2.root with _ | rc2
      · have hre : restoreCoreActorData e2 (writeCoreActorData a) =
            { e2 with hiddenInGame := a.hiddenInGame, transform := a.transform } := by
          rw [hwsT rc ha haf]
          exact restoreCore_v1_none e2 _ _ _ _ he
        rw [hre]
        refine ⟨rfl, rfl, rfl, rfl, rfl, ?_⟩
        intro rc' rc2' h1 h2
        cases h2
      · have hre : restoreCoreActorData e2 (writeCoreActorData a) =
            (if rc2.movable && rc2.simulatingPhysics && rc2.isPrimitive then
              { e2 with hiddenInGame := a.hiddenInGame, transform := a.transform,
                        root := some { rc2 with
                          velocity := rc.velocity,
                          angularVelocity := rc.angularVelocity } }
            else { e2 with hiddenInGame := a.hiddenInGame,
                           transform := a.transform }) := by
          rw [hwsT rc ha haf]
          exact restoreCore_v1_some e2 rc2 _ _ _ _ he
        rw [hre]
        by_cases hef : (rc2.movable && rc2.simulatingPhysics && rc2.isPrimitive) = true
        · rw [if_pos hef]
          refine ⟨rfl, rfl, rfl, rfl, rfl, ?_⟩
          intro rc' rc2' h1 h2 h3 h4
          cases Option.some.inj h1
          cases Option.some.inj h2
          rfl
        · rw [if_neg hef]
          refine ⟨rfl, rfl, rfl, rfl, rfl, ?_⟩
          intro rc' rc2' h1 h2 h3 h4
          cases Option.some.inj h2
          exact absurd h4 hef
    · rw [Bool.not_eq_true] at haf
      rcases he : e2.root with _ | rc2
      · have hre : restoreCoreActorData e2 (writeCoreActorData a) =
            { e2 with hiddenInGame := a.hiddenInGame, transform := a.transform } := by
          rw [hwsF rc ha haf]
          exact restoreCore_v1_none e2 _ _ _ _ he
        rw [hre]
        refine ⟨rfl, rfl, rfl, rfl, rfl, ?_⟩
        intro rc' rc2' h1 h2
        cases h2
      · have hre : restoreCoreActorData e2 (writeCoreActorData a) =
            (if rc2.movable && rc2.simulatingPhysics && rc2.isPrimitive then
              { e2 with hiddenInGame := a.hiddenInGame, transform := a.transform,
                        root := some { rc2 with
                          velocity := 0,
                          angularVelocity := 0 } }
            else { e2 with hiddenInGame := a.hiddenInGame,
                           transform := a.transform }) := by
          rw [hwsF rc ha haf]
          exact restoreCore_v1_some e2 rc2 _ _ _ _ he
        rw [hre]
        by_cases hef : (rc2.movable && rc2.simulatingPhysics && rc2.isPrimitive) = true
        · rw [if_pos hef]
          refine ⟨rfl, rfl, rfl, rfl, rfl, ?_⟩
          intro rc' rc2' h1 h2 h3 h4
          cases Option.some.inj h1
          rw [haf] at h3
          cases h3
        · rw [if_neg hef]
          refine ⟨rfl, rfl, rfl, rfl, rfl, ?_⟩
          intro rc' rc2' h1 h2 h3 h4
          cases Option.some.inj h2
          exact absurd h4 hef

/-- PostRestoreObject only touches the custom state, and writes the given
blob to it exactly when the actor implements the callback interface. -/
theorem postRestore_fields (a : Actor) (cd : List Nat) :
    (postRestoreObject a cd).props = a.props ∧
    (postRestoreObject a cd).hiddenInGame = a.hiddenInGame ∧
    (postRestoreObject a cd).transform = a.transform ∧
    (postRestoreObject a cd).root = a.root ∧
    (a.implementsCallback = true → (postRestoreObject a cd).customState = cd) := by
  unfold postRestoreObject
  by_cases h : a.implementsCallback = true
  · rw [if_pos h]
    exact ⟨rfl, rfl, rfl, rfl, fun _ => rfl⟩
  · rw [if_neg h]
    exact ⟨rfl, rfl, rfl, rfl, fun hc => absurd hc h⟩

/-- RestoreActor factored through a successful record lookup whose stored
class definition matches the live class: the fast visitor runs on the
stored blob after the core restore, then the custom-data hook. -/
theorem restore_fast_of_lookup (e2 : Actor) (ld : LevelData) (od : ObjectData)
    (i : Nat) (cd : ClassDef)
    (hbad : hasBadFlags e2 = false)
    (hlook : lookupActorRecord e2 ld = some od)
    (hgcd : getClassDef ld.metadata (getClassName e2) = some (i, cd))
    (hfc : cd.fastCache = none)
    (hcp : (restoreCoreActorData e2 od.coreData).props = e2.props)
    (hseq : seqList ld.metadata.propertyNameIndex ld.metadata.prefixIndex
        (some 0) e2.props = some cd.properties) :
    (restoreActor e2 ld).1 =
      postRestoreObject
        { restoreCoreActorData e2 od.coreData with
            props := (fastList e2.props ⟨0, od.propData⟩).1 }
        od.customData := by
  have hmrc : matchesRuntimeClass cd ld.metadata.propertyNameIndex
      ld.metadata.prefixIndex e2.props
      = (true, { cd with fastCache := some true }) := by
    unfold matchesRuntimeClass
    rw [hfc]
    simp only [hseq, beq_self_eq_true]
  have hrop : (restoreObjectProperties (restoreCoreActorData e2 od.coreData).props
      (getClassName e2) od ld.metadata).1
      = (fastList e2.props ⟨0, od.propData⟩).1 := by
    rw [hcp]
    unfold restoreObjectProperties
    rw [hgcd]
    simp [hmrc]
  unfold restoreActor
  rw [hbad, hlook]
  simp only [Bool.false_eq_true, if_false]
  rw [hrop]

/-- The restore half of the round trip, factored over the record and class
definition produced by the snapshot. -/
theorem restore_roundtrip_aux (a e2 : Actor) (ld3 : LevelData) (od : ObjectData)
    (cn : String) (ds : List PropertyDef)
    (hbadE : hasBadFlags e2 = false)
    (hcb : e2.implementsCallback = a.implementsCallback)
    (hshape : stripList e2.props = stripList a.props)
    (hlook : lookupActorRecord e2 ld3 = some od)
    (hgcd : getClassDef ld3.metadata (getClassName e2) = some (0, ⟨cn, ds, none⟩))
    (hseqA : seqList ld3.metadata.propertyNameIndex ld3.metadata.prefixIndex
        (some 0) a.props = some ds)
    (hcore : od.coreData = writeCoreActorData a)
    (hpd : od.propData = leafVals a.props)
    (hcust : od.customData = (if a.implementsCallback then a.customState else [])) :
    (restoreActor e2 ld3).1.props = a.props ∧
    (restoreActor e2 ld3).1.hiddenInGame = a.hiddenInGame ∧
    (restoreActor e2 ld3).1.transform = a.transform ∧
    (∀ rc rc2, a.root = some rc → e2.root = some rc2 →
      (rc.movable && rc.simulatingPhysics && rc.isPrimitive) = true →
      (rc2.movable && rc2.simulatingPhysics && rc2.isPrimitive) = true →
      (restoreActor e2 ld3).1.root = some { rc2 with
        velocity := rc.velocity,
        angularVelocity := rc.angularVelocity }) ∧
    (a.implementsCallback = true →
      (restoreActor e2 ld3).1.customState = a.customState) := by
  have hcp : (restoreCoreActorData e2 od.coreData).props = e2.props := by
    rw [hcore]
    exact (restoreCore_roundtrip a e2).2.2.1
  have hseqE : seqList ld3.metadata.propertyNameIndex ld3.metadata.prefixIndex
      (some 0) e2.props = some ds := by
    rw [← seqList_strip ld3.metadata.propertyNameIndex ld3.metadata.prefixIndex
      (some 0) e2.props, hshape, seqList_strip]
    exact hseqA
  have hres := restore_fast_of_lookup e2 ld3 od 0 ⟨cn, ds, none⟩ hbadE hlook hgcd rfl
    hcp hseqE
  have hfast : (fastList e2.props ⟨0, od.propData⟩).1 = a.props := by
    refine fast_correct e2.props a.props ⟨0, od.propData⟩ hshape ?_
    intro i hi
    show od.propData.get? (0 + i) = (leafVals a.props).get? i
    rw [Nat.zero_add, hpd]
  rw [hres]
  refine ⟨?_, ?_, ?_, ?_, ?_⟩
  · rw [(postRestore_fields _ _).1]
    exact hfast
  · rw [(postRestore_fields _ _).2.1]
    show (restoreCoreActorData e2 od.coreData).hiddenInGame = a.hiddenInGame
    rw [hcore]
    exact (restoreCore_roundtrip a e2).1
  · rw [(postRestore_fields _ _).2.2.1]
    show (restoreCoreActorData e2 od.coreData).transform = a.transform
    rw [hcore]
    exact (restoreCore_roundtrip a e2).2.1
  · intro rc rc2 h1 h2 h3 h4
    rw [(postRestore_fields _ _).2.2.2.1]
    show (restoreCoreActorData e2 od.coreData).root = _
    rw [hcore]
    exact (restoreCore_roundtrip a e2).2.2.2.2.2 rc rc2 h1 h2 h3 h4
  · intro hicb
    have hAcb : ({ restoreCoreActorData e2 od.coreData with
        props := (fastList e2.props ⟨0, od.propData⟩).1 }).implementsCallback
          = true := by
      show (restoreCoreActorData e2 od.coreData).implementsCallback = true
      rw [hcore, (restoreCore_roundtrip a e2).2.2.2.1, hcb, hicb]
    rw [(postRestore_fields _ _).2.2.2.2 hAcb, hcust, if_pos hicb]

/-- Claim C1: the snapshot/restore round trip.  Snapshotting a live entity
`a` into a fresh level record (UpdateFromActor: core data, property blob
with offsets, optional custom data) and then restoring that record
(RestoreActor) onto a freshly-constructed entity `e2` of the same class —
same class name, stable name, identity guid, respawn routing, callback
flag and reflected property shape, with a duplicate-free property
signature — makes `e2` observably equal to `a` on every persisted
property, on the hidden flag and the transform, on the velocities for
movable physics-simulating primitive roots, and on the custom data when
the class implements the callback interface.  Both storage routes (level
actor and runtime-spawned actor) are covered. -/
theorem claim_C1 (a e2 : Actor) (L : String) (g : Guid)
    (hbadA : hasBadFlags a = false)
    (hbadE : hasBadFlags e2 = false)
    (hcls : e2.className = a.className)
    (hname : e2.name = a.name)
    (hguid : getGuidProperty e2 = getGuidProperty a)
    (hroute : shouldActorBeRespawnedOnRestore e2 = shouldActorBeRespawnedOnRestore a)
    (hcb : e2.implementsCallback = a.implementsCallback)
    (hshape : stripList e2.props = stripList a.props)
    (hnd : (sigList [] a.props).Nodup) :
    (restoreActor e2 (updateFromActor a (emptyLevelData L) g).2).1.props = a.props ∧
    (restoreActor e2 (updateFromActor a (emptyLevelData L) g).2).1.hiddenInGame
      = a.hiddenInGame ∧
    (restoreActor e2 (updateFromActor a (emptyLevelData L) g).2).1.transform
      = a.transform ∧
    (∀ rc rc2, a.root = some rc → e2.root = some rc2 →
      (rc.movable && rc.simulatingPhysics && rc.isPrimitive) = true →
      (rc2.movable && rc2.simulatingPhysics && rc2.isPrimitive) = true →
      (restoreActor e2 (updateFromActor a (emptyLevelData L) g).2).1.root
        = some { rc2 with
            velocity := rc.velocity,
            angularVelocity := rc.angularVelocity }) ∧
    (a.implementsCallback = true →
      (restoreActor e2 (updateFromActor a (emptyLevelData L) g).2).1.customState
        = a.customState) := by
  obtain ⟨hinv1, ⟨en, ep, hen, hep⟩, ⟨ds, hprops1, hseq1, hdec1⟩, hdata1⟩ :=
    snapList_spec a.props 0 ⟨[], [], [], [], []⟩ []
      ⟨⟨List.nodup_nil, List.nodup_nil, (fun i pr h => nomatch h),
        (fun i pr h => nomatch h)⟩, (fun e he => nomatch he)⟩
      (by rw [decodePrefixPath]) hnd (fun e he => nomatch he)
  have hpropsds : (snapList 0 a.props ⟨[], [], [], [], []⟩).props = ds := by
    rw [hprops1]
    rfl
  have hdataA : (snapList 0 a.props ⟨[], [], [], [], []⟩).data = leafVals a.props := by
    rw [hdata1]
    rfl
  cases hA : shouldActorBeRespawnedOnRestore a with
  | false =>
      have hroute2 : shouldActorBeRespawnedOnRestore e2 = false := by
        rw [hroute, hA]
      have hupd : (updateFromActor a (emptyLevelData L) g).2 =
          ⟨L, ⟨[], (snapList 0 a.props ⟨[], [], [], [], []⟩).names,
               (snapList 0 a.props ⟨[], [], [], [], []⟩).pfxIndex,
               [⟨getClassName a, (snapList 0 a.props ⟨[], [], [], [], []⟩).props,
                 none⟩]⟩,
           [⟨a.name, ⟨writeCoreActorData a,
                      (snapList 0 a.props ⟨[], [], [], [], []⟩).data,
                      (snapList 0 a.props ⟨[], [], [], [], []⟩).offsets,
                      if a.implementsCallback then a.customState else []⟩⟩],
           [], []⟩ := by
        unfold updateFromActor
        rw [hbadA, hA]
        rfl
      rw [hupd]
      refine restore_roundtrip_aux a e2 _
        ⟨writeCoreActorData a,
         (snapList 0 a.props ⟨[], [], [], [], []⟩).data,
         (snapList 0 a.props ⟨[], [], [], [], []⟩).offsets,
         if a.implementsCallback then a.customState else []⟩
        (getClassName a) (snapList 0 a.props ⟨[], [], [], [], []⟩).props
        hbadE hcb hshape ?_ ?_ ?_ rfl ?_ rfl
      · unfold lookupActorRecord findLevelActorIdx
        rw [hroute2, hname]
        simp only [Bool.false_eq_true, if_false, List.findIdx?_cons,
          beq_self_eq_true, if_true]
        rfl
      · unfold getClassDef
        rw [show getClassName e2 = getClassName a from hcls]
        simp only [List.findIdx?_cons, beq_self_eq_true, if_true]
        rfl
      · show seqList (snapList 0 a.props ⟨[], [], [], [], []⟩).names
            (snapList 0 a.props ⟨[], [], [], [], []⟩).pfxIndex (some 0) a.props
          = some (snapList 0 a.props ⟨[], [], [], [], []⟩).props
        rw [hpropsds]
        exact hseq1
      · exact hdataA
  | true =>
      have hroute2 : shouldActorBeRespawnedOnRestore e2 = true := by
        rw [hroute, hA]
      have hguidA : (getGuidProperty a != 0) = true := by
        have h := hA
        unfold shouldActorBeRespawnedOnRestore isRuntimeActor at h
        rw [Bool.and_eq_true] at h
        exact h.1
      have hguidE : (getGuidProperty e2 != 0) = true := by
        have h := hroute2
        unfold shouldActorBeRespawnedOnRestore isRuntimeActor at h
        rw [Bool.and_eq_true] at h
        exact h.1
      have hupd : (updateFromActor a (emptyLevelData L) g).2 =
          ⟨L, ⟨[getClassName a],
               (snapList 0 a.props ⟨[], [], [], [], []⟩).names,
               (snapList 0 a.props ⟨[], [], [], [], []⟩).pfxIndex,
               [⟨getClassName a, (snapList 0 a.props ⟨[], [], [], [], []⟩).props,
                 none⟩]⟩,
           [],
           [⟨getGuidProperty a, 0,
             ⟨writeCoreActorData a,
              (snapList 0 a.props ⟨[], [], [], [], []⟩).data,
              (snapList 0 a.props ⟨[], [], [], [], []⟩).offsets,
              if a.implementsCallback then a.customState else []⟩⟩],
           []⟩ := by
        simp only [updateFromActor, getSpawnedActorData, hbadA, hA, hguidA,
          Bool.not_true, Bool.false_and, Bool.false_eq_true, if_false,
          eq_self_iff_true, if_true]
        rfl
      rw [hupd]
      refine restore_roundtrip_aux a e2 _
        ⟨writeCoreActorData a,
         (snapList 0 a.props ⟨[], [], [], [], []⟩).data,
         (snapList 0 a.props ⟨[], [], [], [], []⟩).offsets,
         if a.implementsCallback then a.customState else []⟩
        (getClassName a) (snapList 0 a.props ⟨[], [], [], [], []⟩).props
        hbadE hcb hshape ?_ ?_ ?_ rfl ?_ rfl
      · unfold lookupActorRecord
        rw [hroute2]
        simp only [getSpawnedActorData, findSpawnedIdx, hguidE, hguid, hguidA,
          Bool.not_true, Bool.and_false, Bool.false_eq_true, if_false,
          eq_self_iff_true, if_true, List.findIdx?_cons, beq_self_eq_true]
        rfl
      · unfold getClassDef
        rw [show getClassName e2 = getClassName a from hcls]
        simp only [List.findIdx?_cons, beq_self_eq_true, if_true]
        rfl
      · show seqList (snapList 0 a.props ⟨[], [], [], [], []⟩).names
            (snapList 0 a.props ⟨[], [], [], [], []⟩).pfxIndex (some 0) a.props
          = some (snapList 0 a.props ⟨[], [], [], [], []⟩).props
        rw [hpropsds]
        exact hseq1
      · exact hdataA

/-- Claim C1 witness: a level actor with a nested-struct property forest,
snapshotted into a fresh level record and restored onto a blank same-class
instance, gets all its property values back. -/
theorem claim_C1_witness :
    stripList [PropTree.leaf "hp" 0, PropTree.comp "sub" [PropTree.leaf "x" 0]]
      = stripList [PropTree.leaf "hp" 7, PropTree.comp "sub" [PropTree.leaf "x" 3]] ∧
    (sigList [] [PropTree.leaf "hp" 7,
      PropTree.comp "sub" [PropTree.leaf "x" 3]]).Nodup ∧
    (restoreActor
      (⟨"A", "C", "L", false, false, false, false, 0, some ⟨true, true, true, 0, 0⟩,
        none, none, false, false, false, false, true, false, [],
        [PropTree.leaf "hp" 0, PropTree.comp "sub" [PropTree.leaf "x" 0]]⟩ : Actor)
      (updateFromActor
        (⟨"A", "C", "L", false, false, false, true, 42, some ⟨true, true, true, 9, 10⟩,
          none, none, false, false, false, false, true, false, [],
          [PropTree.leaf "hp" 7, PropTree.comp "sub" [PropTree.leaf "x" 3]]⟩ : Actor)
        (emptyLevelData "L") 5).2).1.props
      = [PropTree.leaf "hp" 7, PropTree.comp "sub" [PropTree.leaf "x" 3]] := by
  have hshape : stripList [PropTree.leaf "hp" 0,
      PropTree.comp "sub" [PropTree.leaf "x" 0]]
      = stripList [PropTree.leaf "hp" 7,
          PropTree.comp "sub" [PropTree.leaf "x" 3]] := by
    simp only [stripList]
  have hnd : (sigList [] [PropTree.leaf "hp" 7,
      PropTree.comp "sub" [PropTree.leaf "x" 3]]).Nodup := by
    simp only [sigList, List.nil_append]
    decide
  refine ⟨hshape, hnd, ?_⟩
  exact (claim_C1
    (⟨"A", "C", "L", false, false, false, true, 42, some ⟨true, true, true, 9, 10⟩,
      none, none, false, false, false, false, true, false, [],
      [PropTree.leaf "hp" 7, PropTree.comp "sub" [PropTree.leaf "x" 3]]⟩ : Actor)
    (⟨"A", "C", "L", false, false, false, false, 0, some ⟨true, true, true, 0, 0⟩,
      none, none, false, false, false, false, true, false, [],
      [PropTree.leaf "hp" 0, PropTree.comp "sub" [PropTree.leaf "x" 0]]⟩ : Actor)
    "L" 5 rfl rfl rfl rfl rfl rfl rfl hshape hnd).1

/-- Claim C2: property restoration selects the fast path iff the stored
class definition's property sequence is identical — same names, same
order, same nesting (leaf properties with their nested-struct name
paths) — to the live class's current reflected sequence (i); any
divergence selects the slow path, which still restores every property
present in both the stored and the live definition, leaf by leaf, by
name-based lookup into the stored definition, leaving the rest untouched
(ii); and the decision is computed once per class definition, cached in
it, and every later query within the load returns the cached bit without
recomputation (iii). -/
theorem claim_C2 (cd : ClassDef) (names : List String)
    (pfxIndex : List (Nat × Nat)) (live : List PropTree)
    (wf : MetaWF names pfxIndex) :
    (cd.fastCache = none →
      ((matchesRuntimeClass cd names pfxIndex live).1 = true ↔
        decodeSeq names pfxIndex cd.properties = some (sigList [] live))) ∧
    (∀ (data : List Value) (offsets : List Nat) (sig : List (List String × String)),
      decodeSeq names pfxIndex cd.properties = some sig →
      slowList ⟨names, pfxIndex, cd.properties, data, offsets⟩ (some 0) live
        = slowSpec sig data offsets [] live) ∧
    ((matchesRuntimeClass cd names pfxIndex live).2.fastCache
        = some (matchesRuntimeClass cd names pfxIndex live).1 ∧
      ∀ b, cd.fastCache = some b →
        ∀ (names' : List String) (pfxIndex' : List (Nat × Nat)) (live' : List PropTree),
          matchesRuntimeClass cd names' pfxIndex' live' = (b, cd)) := by
  have h0 : decodePrefixPath names pfxIndex 0 = some [] := by rw [decodePrefixPath]
  refine ⟨?_, ?_, ?_, ?_⟩
  · intro hcache
    unfold matchesRuntimeClass
    rw [hcache]
    simp only [beq_iff_eq]
    constructor
    · intro hseq
      exact seq_fwd wf live h0 hseq
    · intro hdec
      exact seq_bwd wf live h0 hdec
  · intro data offsets sig hdec
    exact slowList_correspond data offsets wf hdec live (some 0) []
      (Or.inl ⟨0, rfl, h0⟩)
  · unfold matchesRuntimeClass
    cases hcache : cd.fastCache with
    | none => rfl
    | some b => rw [hcache]
  · intro b hb names' pfxIndex' live'
    unfold matchesRuntimeClass
    rw [hb]

/-- Claim C2 witness: with a two-property class (one root leaf `a`, one
leaf `a` nested in struct `s`) the stored sequence decodes to exactly the
live signature and the fast path is selected; the caching part holds
definitionally. -/
theorem claim_C2_witness :
    MetaWF ["a", "s"] [(0, 1)] ∧
    (matchesRuntimeClass ⟨"C", [⟨0, 0⟩, ⟨1, 0⟩], none⟩ ["a", "s"] [(0, 1)]
        [PropTree.leaf "a" 5, PropTree.comp "s" [PropTree.leaf "a" 6]]).1 = true := by
  have wf : MetaWF ["a", "s"] [(0, 1)] := by
    refine ⟨by decide, by decide, ?_, ?_⟩ <;>
      (intro i pr h
       match i with
       | 0 => cases h; decide
       | i + 1 => cases h)
  refine ⟨wf, ?_⟩
  have hdp0 : decodePrefixPath ["a", "s"] [(0, 1)] 0 = some [] := by
    rw [decodePrefixPath]
  have hdp1 : decodePrefixPath ["a", "s"] [(0, 1)] 1 = some ["s"] := by
    rw [show (1 : Nat) = 0 + 1 from rfl, decodePrefixPath]
    simp [hdp0]
  have h1 : decodeSP ["a", "s"] [(0, 1)] ⟨0, 0⟩ = some ([], "a") := by
    simp [decodeSP, hdp0]
  have h2 : decodeSP ["a", "s"] [(0, 1)] ⟨1, 0⟩ = some (["s"], "a") := by
    simp [decodeSP, hdp1]
  have hdec : decodeSeq ["a", "s"] [(0, 1)] [⟨0, 0⟩, ⟨1, 0⟩]
      = some [([], "a"), (["s"], "a")] :=
    decodeSeq_cons_iff.mpr ⟨_, _, h1,
      decodeSeq_cons_iff.mpr ⟨_, _, h2, rfl, rfl⟩, rfl⟩
  have hsig : sigList []
      [PropTree.leaf "a" 5, PropTree.comp "s" [PropTree.leaf "a" 6]]
      = [([], "a"), (["s"], "a")] := by
    rw [sigList, sigList, sigList, sigList, sigList]
    simp
  exact ((claim_C2 ⟨"C", [⟨0, 0⟩, ⟨1, 0⟩], none⟩ ["a", "s"] [(0, 1)]
      [PropTree.leaf "a" 5, PropTree.comp "s" [PropTree.leaf "a" 6]] wf).1 rfl).mpr
    (by rw [hsig]; exact hdec)

/-- Claim C3: RestoreLevel respawns and registers every stored
spawned-entity record (that resolves to a class) in the guid-keyed identity
table before any live entity's property restoration runs: the trace splits
into respawn events, then restoration events, then destroyed-actor
removals, every resolving spawned record is respawned, and the identity
table passed to every restoration call contains every such record's guid,
regardless of container iteration order. -/
theorem claim_C3 (sd : SaveData) (lvl : Level) (resolve : String → Option Actor)
    (li : Nat) (ld : LevelData)
    (hfind : sd.levels.findIdx? (·.name == lvl.name) = some li)
    (hget : sd.levels.get? li = some ld) :
    ∃ trA trB trC,
      (restoreLevel sd lvl resolve).2.2 = trA ++ trB ++ trC ∧
      (∀ e ∈ trA, ∃ g, e = REvent.respawn g) ∧
      (∀ e ∈ trB, ∃ n ks, e = REvent.restoreEnt n ks) ∧
      (∀ e ∈ trC, ∃ n, e = REvent.destroyEnt n) ∧
      (∀ sad ∈ ld.spawnedActors, (respawnActor sad ld.metadata resolve).isSome →
        REvent.respawn sad.guid ∈ trA ∧
        (∀ n ks, REvent.restoreEnt n ks ∈ trB → sad.guid ∈ ks)) := by
  have ha := phaseA_spec ld.metadata resolve ld.spawnedActors
  refine ⟨(phaseA ld.metadata resolve ld.spawnedActors).2.2,
          (phaseB ld (phaseA ld.metadata resolve ld.spawnedActors).2.1
            (lvl.actors ++ (phaseA ld.metadata resolve ld.spawnedActors).1)).2.2,
          (phaseC ld.destroyedActors
            (phaseB ld (phaseA ld.metadata resolve ld.spawnedActors).2.1
              (lvl.actors ++ (phaseA ld.metadata resolve ld.spawnedActors).1)).1).2,
          ?_, ha.1, ?_, phaseC_spec _ _, ?_⟩
  · simp only [restoreLevel, hfind, hget]
  · intro e he
    rcases phaseB_spec _ _ _ e he with ⟨n, ks, rfl, _⟩
    exact ⟨n, ks, rfl⟩
  · intro sad hsad hsome
    refine ⟨(ha.2 sad hsad hsome).1, ?_⟩
    intro n ks hks
    rcases phaseB_spec _ _ _ _ hks with ⟨n', ks', heq, hsub⟩
    cases heq
    exact hsub _ ((ha.2 sad hsad hsome).2)

/-- Claim C3 witness: in a concrete level with one stored spawned record
(guid 7, resolvable class) the restore trace contains its respawn event. -/
theorem claim_C3_witness :
    REvent.respawn 7 ∈ (restoreLevel
      ⟨[{ emptyLevelData "L" with
            metadata := ⟨["C"], [], [], []⟩,
            spawnedActors := [⟨7, 0, emptyObjectData⟩] }]⟩
      ⟨"L", []⟩
      (fun s => if s == "C" then
          some ⟨"S", "C", "L", false, false, false, false, 0, none, some 1, none,
                false, false, false, false, true, false, [], []⟩
        else none)).2.2 := by
  obtain ⟨trA, trB, trC, htr, _, _, _, hlast⟩ := claim_C3
    ⟨[{ emptyLevelData "L" with
          metadata := ⟨["C"], [], [], []⟩,
          spawnedActors := [⟨7, 0, emptyObjectData⟩] }]⟩
    ⟨"L", []⟩
    (fun s => if s == "C" then
        some ⟨"S", "C", "L", false, false, false, false, 0, none, some 1, none,
              false, false, false, false, true, false, [], []⟩
      else none)
    0
    { emptyLevelData "L" with
        metadata := ⟨["C"], [], [], []⟩,
        spawnedActors := [⟨7, 0, emptyObjectData⟩] }
    rfl rfl
  have h7 := (hlast ⟨7, 0, emptyObjectData⟩ (List.mem_singleton.mpr rfl) rfl).1
  rw [htr]
  exact List.mem_append_left _ (List.mem_append_left _ h7)

/-- Claim C4: during fast-path restoration each visited leaf property
consumes exactly one entry of the stored property list (the iterator
advances by one), while a custom-struct container property does not itself
advance the stored-property iterator: visiting it advances the iterator by
exactly the number of its nested leaf properties, and in general a

traversal consumes exactly the number of leaves it contains. -/
theorem claim_C4 :
    (∀ (st : FastState) (n : String) (v : Value),
        (fastList [PropTree.leaf n v] st).2.it = st.it + 1) ∧
    (∀ (st : FastState) (n : String) (cs : List PropTree),
        (fastList [PropTree.comp n cs] st).2.it = st.it + leafCount cs) ∧
    (∀ (ts : List PropTree) (st : FastState),
        (fastList ts st).2.it = st.it + leafCount ts) := by
  refine ⟨fun st n v => ?_, fun st n cs => ?_, fun ts st => (fastList_it ts st).1⟩
  · rw [(fastList_it [PropTree.leaf n v] st).1]; simp [leafCount]
  · rw [(fastList_it [PropTree.comp n cs] st).1]; simp [leafCount]

/-- An unrecognized core-data version tag leaves the actor untouched. -/
theorem restoreCoreActorData_unrecognized (a : Actor) (d : List RawVal)
    (h : readVersion d ≠ 1) : restoreCoreActorData a d = a := by
  unfold restoreCoreActorData
  simp only [beq_iff_eq, if_neg h]

/-- Claim C5: an unrecognized (≠ 1) version tag at the start of stored core
data aborts core-data restoration without modifying the actor; RestoreActor
nevertheless still restores the actor's reflected properties (and core
fields stay at their pre-restore values); a tag equal to 1 applies the
hidden flag and transform, and applies the stored velocities exactly when
the root component is movable and simulating physics (a primitive
component), leaving the root untouched otherwise. -/
theorem claim_C5 :
    (∀ (a : Actor) (d : List RawVal), readVersion d ≠ 1 →
        restoreCoreActorData a d = a) ∧
    (∀ (a : Actor) (ld : LevelData) (od : ObjectData),
        hasBadFlags a = false → lookupActorRecord a ld = some od →
        readVersion od.coreData ≠ 1 →
        restoreActor a ld =
          (postRestoreObject
            { a with props := (restoreObjectProperties a.props (getClassName a)
                                 od ld.metadata).1 } od.customData,
           { ld with metadata := (restoreObjectProperties a.props (getClassName a)
                                    od ld.metadata).2 }) ∧
        (restoreActor a ld).1.hiddenInGame = a.hiddenInGame ∧
        (restoreActor a ld).1.transform = a.transform ∧
        (restoreActor a ld).1.root = a.root) ∧
    (∀ (a : Actor) (h : Bool) (t v av : Nat) (r : Actor),
        r = restoreCoreActorData a
          [RawVal.u16 1, RawVal.rbool h, RawVal.rxform t, RawVal.rvec v, RawVal.rvec av] →
        r.hiddenInGame = h ∧ r.transform = t ∧
        (∀ rc, a.root = some rc →
          (rc.movable && rc.simulatingPhysics && rc.isPrimitive) = true →
          r.root = some { rc with velocity := v, angularVelocity := av }) ∧
        (∀ rc, a.root = some rc →
          (rc.movable && rc.simulatingPhysics && rc.isPrimitive) = false →
          r.root = a.root) ∧
        (a.root = none → r.root = none)) := by
  refine ⟨restoreCoreActorData_unrecognized, ?_, ?_⟩
  · intro a ld od hflags hrec hver
    have hcore := restoreCoreActorData_unrecognized a od.coreData hver
    have hmain : restoreActor a ld =
        (postRestoreObject
          { a with props := (restoreObjectProperties a.props (getClassName a)
                               od ld.metadata).1 } od.customData,
         { ld with metadata := (restoreObjectProperties a.props (getClassName a)
                                  od ld.metadata).2 }) := by
      unfold restoreActor
      rw [hflags, hrec]
      simp only [Bool.false_eq_true, if_false, hcore]
    refine ⟨hmain, ?_, ?_, ?_⟩ <;>
      rw [hmain] <;> simp only [postRestoreObject] <;> split <;> rfl
  · intro a h t v av r hreq
    subst hreq
    have hv1 : restoreCoreActorData a
        [RawVal.u16 1, RawVal.rbool h, RawVal.rxform t, RawVal.rvec v, RawVal.rvec av] =
        (match a.root with
         | some rc =>
             if rc.movable && rc.simulatingPhysics && rc.isPrimitive then
               { a with hiddenInGame := h, transform := t,
                        root := some { rc with velocity := v, angularVelocity := av } }
             else { a with hiddenInGame := h, transform := t }
         | none => { a with hiddenInGame := h, transform := t }) := rfl
    rcases hr : a.root with _ | rc
    · refine ⟨?_, ?_, ?_, ?_, ?_⟩ <;> simp [hv1, hr]
    · refine ⟨?_, ?_, ?_, ?_, ?_⟩
      · by_cases hm : (rc.movable && rc.simulatingPhysics && rc.isPrimitive) = true <;>
          simp [hv1, hr, hm]
      · by_cases hm : (rc.movable && rc.simulatingPhysics && rc.isPrimitive) = true <;>
          simp [hv1, hr, hm]
      · intro rc' hrc' htrue
        cases Option.some.inj hrc'
        simp [hv1, hr, htrue]
      · intro rc' hrc' hfalse
        cases Option.some.inj hrc'
        simp [hv1, hr, hfalse]
      · intro hnone
        exact Option.noConfusion hnone

/-- Claim C5 witness: a version-2 tag leaves the actor untouched while its
properties still restore; a version-1 tag applies the hidden flag. -/
theorem claim_C5_witness :
    (readVersion [RawVal.u16 2] ≠ 1 ∧
      restoreCoreActorData
        ⟨"A", "C", "L", false, false, false, false, 5, none, some 0, none,
          false, false, false, false, true, false, [], []⟩ [RawVal.u16 2]
        = ⟨"A", "C", "L", false, false, false, false, 5, none, some 0, none,
            false, false, false, false, true, false, [], []⟩) ∧
    (lookupActorRecord
        ⟨"A", "C", "L", false, false, false, false, 5, none, some 0, none,
          false, false, false, false, true, false, [], []⟩
        ⟨"L", ⟨[], [], [], []⟩, [⟨"A", ⟨[RawVal.u16 2], [], [], []⟩⟩], [], []⟩
      = some ⟨[RawVal.u16 2], [], [], []⟩ ∧
      (restoreActor
        ⟨"A", "C", "L", false, false, false, false, 5, none, some 0, none,
          false, false, false, false, true, false, [], []⟩
        ⟨"L", ⟨[], [], [], []⟩, [⟨"A", ⟨[RawVal.u16 2], [], [], []⟩⟩], [], []⟩).1.transform
        = 5) ∧
    (restoreCoreActorData
        ⟨"B", "C", "L", false, false, false, false, 5, none, none, none,
          false, false, false, false, true, false, [], []⟩
        [RawVal.u16 1, RawVal.rbool true, RawVal.rxform 4, RawVal.rvec 6,
         RawVal.rvec 7]).hiddenInGame = true :=
  ⟨⟨by decide,
    claim_C5.1
      ⟨"A", "C", "L", false, false, false, false, 5, none, some 0, none,
        false, false, false, false, true, false, [], []⟩ [RawVal.u16 2] (by decide)⟩,
   ⟨rfl,
    (claim_C5.2.1
      ⟨"A", "C", "L", false, false, false, false, 5, none, some 0, none,
        false, false, false, false, true, false, [], []⟩
      ⟨"L", ⟨[], [], [], []⟩, [⟨"A", ⟨[RawVal.u16 2], [], [], []⟩⟩], [], []⟩
      ⟨[RawVal.u16 2], [], [], []⟩ rfl rfl (by decide)).2.2.1⟩,
   (claim_C5.2.2
      ⟨"B", "C", "L", false, false, false, false, 5, none, none, none,
        false, false, false, false, true, false, [], []⟩
      true 4 6 7 _ rfl).1⟩

/-- Claim C6: the routing decision treats an actor as runtime/spawned iff
it carries a valid (present and nonblank) SpudGuid identity AND the respawn
policy approves: an AlwaysRespawn override yields true, NeverRespawn yields
false, and the Default policy excludes exactly GameModeBase, GameStateBase,
Pawn and Character. -/
theorem claim_C6 (a : Actor) :
    shouldActorBeRespawnedOnRestore a = true ↔
      ((∃ g, a.spudGuid = some g ∧ g ≠ 0) ∧
        (a.respawnOverride = some RespawnMode.alwaysRespawn ∨
          (a.respawnOverride ≠ some RespawnMode.neverRespawn ∧
            a.isGameModeBase = false ∧ a.isGameStateBase = false ∧
            a.isPawn = false ∧ a.isCharacter = false))) := by
  unfold shouldActorBeRespawnedOnRestore isRuntimeActor getGuidProperty
    shouldRespawnRuntimeActor
  rcases hg : a.spudGuid with _ | g
  · simp [hg]
  · rcases ho : a.respawnOverride with _ | m
    · simp [hg, ho]; tauto
    · cases m <;> simp [hg, ho] <;> tauto

/-- Claim C8: RestoreLevel invoked for a level with no stored level data
returns before performing any mutation: the level, the save data and the
event trace are all untouched/empty. -/
theorem claim_C8 (sd : SaveData) (lvl : Level) (resolve : String → Option Actor)
    (h : sd.levels.findIdx? (·.name == lvl.name) = none) :
    restoreLevel sd lvl resolve = (lvl, sd, []) := by
  unfold restoreLevel
  rw [h]

/-- Claim C8 witness. -/
theorem claim_C8_witness :
    restoreLevel ⟨[emptyLevelData "A"]⟩ ⟨"B", []⟩ (fun _ => none)
      = (⟨"B", []⟩, ⟨[emptyLevelData "A"]⟩, []) :=
  claim_C8 ⟨[emptyLevelData "A"]⟩ ⟨"B", []⟩ (fun _ => none) (by decide)

theorem destroyActorByName_cons (n : String) (a : Actor) (as : List Actor) :
    destroyActorByName n (a :: as) =
      if a.name == n then as else a :: destroyActorByName n as := by
  unfold destroyActorByName
  by_cases h : (a.name == n) = true
  · simp [List.findIdx?_cons, h]
  · simp only [List.findIdx?_cons, h, if_false, Bool.false_eq_true]
    rw [List.findIdx?_start_succ]
    cases hfi : as.findIdx? (fun x => x.name == n) <;> simp [hfi]

theorem destroyActorByName_eq_self (n : String) (as : List Actor)
    (h : ∀ x ∈ as, (x.name == n) = false) : destroyActorByName n as = as := by
  unfold destroyActorByName
  rw [List.findIdx?_eq_none_iff.mpr h]

theorem destroyActorByName_idem (n : String) (as : List Actor)
    (h : (as.map Actor.name).Nodup) :
    destroyActorByName n (destroyActorByName n as) = destroyActorByName n as := by
  induction as with
  | nil => rfl
  | cons a as ih =>
      have h' := h
      rw [List.map_cons, List.nodup_cons] at h'
      rw [destroyActorByName_cons]
      by_cases ha : (a.name == n) = true
      · rw [if_pos ha]
        apply destroyActorByName_eq_self
        intro x hx
        by_contra hcon
        have hxn : x.name = n := by
          cases hxe : (x.name == n) with
          | true => exact beq_iff_eq.mp hxe
          | false => exact absurd hxe hcon
        have han : a.name = n := beq_iff_eq.mp ha
        exact h'.1 (han ▸ hxn ▸ List.mem_map_of_mem Actor.name hx)
      · rw [if_neg ha, destroyActorByName_cons, if_neg ha, ih h'.2]

/-- Claim C7: recording the same level-actor name as destroyed twice is
accepted silently (no duplicate check: the name is simply appended twice),
and the effect on restore is idempotent: with level-actor names unique
within a level, the removal of that name is applied at most once — a second
removal pass is a silent no-op. -/
theorem claim_C7 (a : Actor) (ld : LevelData) (as : List Actor)
    (h : (as.map Actor.name).Nodup) :
    (updateLevelActorDestroyed a (updateLevelActorDestroyed a ld)).destroyedActors
        = ld.destroyedActors ++ [a.name, a.name] ∧
    destroyActorByName a.name (destroyActorByName a.name as)
        = destroyActorByName a.name as :=
  ⟨by simp [updateLevelActorDestroyed], destroyActorByName_idem a.name as h⟩

/-- Claim C7 witness at a concrete two-actor level. -/
theorem claim_C7_witness :
    ((([⟨"D", "C", "L", false, false, false, false, 0, none, none, none,
         false, false, false, false, true, false, [], []⟩,
       ⟨"E", "C", "L", false, false, false, false, 0, none, none, none,
         false, false, false, false, true, false, [], []⟩] :
        List Actor).map Actor.name).Nodup) ∧
    (updateLevelActorDestroyed
        ⟨"D", "C", "L", false, false, false, false, 0, none, none, none,
          false, false, false, false, true, false, [], []⟩
        (updateLevelActorDestroyed
          ⟨"D", "C", "L", false, false, false, false, 0, none, none, none,
            false, false, false, false, true, false, [], []⟩
          (emptyLevelData "L"))).destroyedActors = ["D", "D"] :=
  ⟨by decide,
   (claim_C7
      ⟨"D", "C", "L", false, false, false, false, 0, none, none, none,
        false, false, false, false, true, false, [], []⟩
      (emptyLevelData "L")
      [⟨"D", "C", "L", false, false, false, false, 0, none, none, none,
         false, false, false, false, true, false, [], []⟩,
       ⟨"E", "C", "L", false, false, false, false, 0, none, none, none,
         false, false, false, false, true, false, [], []⟩]
      (by decide)).1⟩

/-- Claim C10: for an actor carrying any of the class-default-object,
archetype or begin-destroyed flags, UpdateFromActor and RestoreActor (both
the LevelData overloads and the level-resolving overloads) return
immediately: neither the actor nor the in-memory save data is modified. -/
theorem claim_C10 (a : Actor) (ld : LevelData) (sd : SaveData) (g : Guid)
    (h : hasBadFlags a = true) :
    updateFromActor a ld g = (a, ld) ∧ restoreActor a ld = (a, ld) ∧
    updateFromActorOuter a sd g = (a, sd) ∧ restoreActorOuter a sd = (a, sd) := by
  refine ⟨?_, ?_, ?_, ?_⟩ <;> simp [updateFromActor, restoreActor,
    updateFromActorOuter, restoreActorOuter, h]

/-- Claim C10 witness at a concrete archetype-flagged actor. -/
theorem claim_C10_witness :
    hasBadFlags
      ⟨"A", "C", "L", false, true, false, false, 0, none, some 3, none,
        false, false, false, false, true, false, [], []⟩ = true ∧
    updateFromActor
      ⟨"A", "C", "L", false, true, false, false, 0, none, some 3, none,
        false, false, false, false, true, false, [], []⟩
      (emptyLevelData "L") 9 =
      (⟨"A", "C", "L", false, true, false, false, 0, none, some 3, none,
         false, false, false, false, true, false, [], []⟩, emptyLevelData "L") :=
  ⟨rfl,
   (claim_C10
      ⟨"A", "C", "L", false, true, false, false, 0, none, some 3, none,
        false, false, false, false, true, false, [], []⟩
      (emptyLevelData "L") ⟨[]⟩ 9 rfl).1⟩

/-- Claim C9: during snapshot (AutoCreate), an actor routed to spawned
treatment whose SpudGuid property is present but blank gets a freshly
generated guid written back into the live actor (the snapshot mutates the
live object) and a spawned record registered under that guid; and the actor
is excluded (`none`, logged error) exactly when it has no settable SpudGuid
property at all. -/
theorem claim_C9 (a : Actor) (ld : LevelData) (freshGuid : Guid)
    (_hf : freshGuid ≠ 0) :
    (a.spudGuid = some 0 →
      ∃ i ld', getSpawnedActorData a ld true freshGuid
          = some (i, { a with spudGuid := some freshGuid }, ld') ∧
        ∃ j, findSpawnedIdx ld' freshGuid = some j) ∧
    (a.spudGuid = none → getSpawnedActorData a ld true freshGuid = none) ∧
    (getSpawnedActorData a ld true freshGuid = none ↔ a.spudGuid = none) := by
  rcases hg : a.spudGuid with _ | g
  · have hnone : getSpawnedActorData a ld true freshGuid = none := by
      unfold getSpawnedActorData getGuidProperty setGuidProperty
      simp [hg]
    exact ⟨fun hcon => Option.noConfusion hcon, fun _ => hnone, by simp [hnone]⟩
  · by_cases hz : g = 0
    · subst hz
      have hstep : getSpawnedActorData a ld true freshGuid =
          (match findSpawnedIdx ld freshGuid with
           | some i => some (i, { a with spudGuid := some freshGuid }, ld)
           | none =>
              some (ld.spawnedActors.length, { a with spudGuid := some freshGuid },
                { ld with
                    metadata := (findOrAddClassIDFromName ld.metadata (getClassName a)).2,
                    spawnedActors := ld.spawnedActors ++
                      [⟨freshGuid, (findOrAddClassIDFromName ld.metadata (getClassName a)).1,
                        emptyObjectData⟩] })) := by
        unfold getSpawnedActorData getGuidProperty setGuidProperty
        simp [hg]
      refine ⟨fun _ => ?_, fun hcon => Option.noConfusion hcon, ?_⟩
      · rw [hstep]
        cases hfi : findSpawnedIdx ld freshGuid with
        | some i => exact ⟨i, ld, rfl, i, hfi⟩
        | none =>
            refine ⟨ld.spawnedActors.length, _, rfl, ld.spawnedActors.length, ?_⟩
            unfold findSpawnedIdx at hfi ⊢
            simp only [List.findIdx?_append, hfi, Option.or, List.findIdx?_cons]
            simp
      · rw [hstep]
        cases hfi : findSpawnedIdx ld freshGuid <;> simp
    · have hstep : getSpawnedActorData a ld true freshGuid =
          (match findSpawnedIdx ld g with
           | some i => some (i, a, ld)
           | none =>
              some (ld.spawnedActors.length, a,
                { ld with
                    metadata := (findOrAddClassIDFromName ld.metadata (getClassName a)).2,
                    spawnedActors := ld.spawnedActors ++
                      [⟨g, (findOrAddClassIDFromName ld.metadata (getClassName a)).1,
                        emptyObjectData⟩] })) := by
        unfold getSpawnedActorData getGuidProperty
        simp [hg, hz]
      refine ⟨fun hcon => absurd (Option.some.inj hcon) hz,
              fun hcon => Option.noConfusion hcon, ?_⟩
      rw [hstep]
      cases hfi : findSpawnedIdx ld g <;> simp

/-- Claim C9 witness: a blank-guid actor gets the fresh guid written back
and registered; a guid-less actor is excluded. -/
theorem claim_C9_witness :
    ((7 : Guid) ≠ 0 ∧
      ∃ i ld', getSpawnedActorData
          ⟨"A", "C", "L", false, false, false, false, 0, none, some 0, none,
            false, false, false, false, true, false, [], []⟩
          (emptyLevelData "L") true 7
        = some (i,
            ⟨"A", "C", "L", false, false, false, false, 0, none, some 7, none,
              false, false, false, false, true, false, [], []⟩, ld') ∧
        ∃ j, findSpawnedIdx ld' 7 = some j) ∧
    getSpawnedActorData
        ⟨"B", "C", "L", false, false, false, false, 0, none, none, none,
          false, false, false, false, true, false, [], []⟩
        (emptyLevelData "L") true 7 = none :=
  ⟨⟨by decide,
    (claim_C9
      ⟨"A", "C", "L", false, false, false, false, 0, none, some 0, none,
        false, false, false, false, true, false, [], []⟩
      (emptyLevelData "L") 7 (by decide)).1 rfl⟩,
   (claim_C9
      ⟨"B", "C", "L", false, false, false, false, 0, none, none, none,
        false, false, false, false, true, false, [], []⟩
      (emptyLevelData "L") 7 (by decide)).2.1 rfl⟩

end Spud
